import Mathlib

/-!
# Verification of `cumulus-fhir-support`

A shallow embedding, in Lean 4, of the core algorithms of the
`cumulus-fhir-support` Python library, together with proofs of the
behavioural properties claimed in its specification.

Embedded source files:
* `cumulus_fhir_support/http.py`: `parse_retry_after`, `_request_once`,
  `http_request` (retry/backoff orchestrator with 401 re-authentication).
* `cumulus_fhir_support/schemas.py`: `_get_shape_of_dicts` (shape merge) and
  the PyArrow schema builder (`pyarrow_schema_from_rows` and helpers).
* `cumulus_fhir_support/ml_json.py`: `read_multiline_json_with_details` /
  `read_multiline_json`.

Modelling conventions:
* Python `dict`s are association lists with unique keys and Python's
  assignment/update/lookup semantics (`pySet`, `pyUpdate`, `pyGet`).
* Python exceptions become `Except` values; machine-independent stdlib
  collaborators (the JSON decoder, HTTP-date parsing, the transport) are
  abstracted as explicit parameters or data.
* Mutation of dictionaries (relevant for the header-copy frame property) is
  modelled with a small explicit heap: a list of header maps addressed by
  index.
-/

namespace CumulusFhir

/-! ## Python dictionary primitives

An association list `List (String × α)` models a Python `dict` (insertion
ordered, unique keys).  `pySet` is `d[k] = v` (replace in place, else append),
`pyGet` is `d.get(k)`, `pyUpdate` is `d.update(other)`.
-/

/-- Python `d[k] = v`: replace the value at the first occurrence of `k`,
keeping its position; if `k` is absent, append `(k, v)` at the end. -/
def pySet (fs : List (String × α)) (k : String) (v : α) : List (String × α) :=
  match fs with
  | [] => [(k, v)]
  | (k', v') :: rest =>
    if k' = k then (k', v) :: rest else (k', v') :: pySet rest k v

/-- Python `d.get(k)`: the value at the first occurrence of `k`, if any. -/
def pyGet (fs : List (String × α)) (k : String) : Option α :=
  match fs with
  | [] => none
  | (k', v') :: rest => if k' = k then some v' else pyGet rest k

/-- Python `d.update(other)`: assign every binding of `other`, in order. -/
def pyUpdate (fs gs : List (String × α)) : List (String × α) :=
  gs.foldl (fun acc kv => pySet acc kv.1 kv.2) fs

@[simp] theorem pyGet_nil (k : String) : pyGet ([] : List (String × α)) k = none := rfl

theorem pyGet_pySet (fs : List (String × α)) (k k' : String) (v : α) :
    pyGet (pySet fs k v) k' = if k = k' then some v else pyGet fs k' := by
  induction fs with
  | nil =>
    by_cases h : k = k' <;> simp [pySet, pyGet, h]
  | cons kv rest ih =>
    obtain ⟨k₀, v₀⟩ := kv
    by_cases h0 : k₀ = k
    · subst h0
      by_cases h : k₀ = k' <;> simp [pySet, pyGet, h]
    · by_cases h1 : k₀ = k'
      · subst h1
        have hk : ¬k = k₀ := fun h => h0 h.symm
        simp [pySet, pyGet, h0, hk]
      · simp [pySet, pyGet, h0, h1, ih]

/-- Keys of `pySet`: unchanged if the key was present, else the key is
appended. -/
theorem map_fst_pySet (fs : List (String × α)) (k : String) (v : α) :
    (pySet fs k v).map Prod.fst =
      if (pyGet fs k).isSome then fs.map Prod.fst else fs.map Prod.fst ++ [k] := by
  induction fs with
  | nil => simp [pySet, pyGet]
  | cons kv rest ih =>
    obtain ⟨k₀, v₀⟩ := kv
    by_cases h0 : k₀ = k <;> simp [pySet, pyGet, h0, ih]
    split <;> simp

/-! ## JSON values and shape trees (`schemas.py`)

`_get_shape_of_dicts` examines arbitrary decoded-JSON items, so we embed a
JSON value type.  A shape is a dictionary tree of field names
(`{"id": {}, "code": {"text": {}}}`). -/

/-- A decoded JSON value.  Numbers are irrelevant to every embedded
algorithm, so they are carried as an opaque integer. -/
inductive JSON where
  | null
  | bool (b : Bool)
  | num (n : Int)
  | str (s : String)
  | arr (xs : List JSON)
  | obj (kvs : List (String × JSON))

/-- The shape of a batch of dicts: a dictionary tree of field names, as built
by `_get_shape_of_dicts`.  An empty node means "no further children". -/
inductive Shape where
  | node : List (String × Shape) → Shape

/-- The field list of a shape node. -/
def Shape.fields : Shape → List (String × Shape)
  | .node fs => fs

@[simp] theorem Shape.fields_node (fs : List (String × Shape)) :
    (Shape.node fs).fields = fs := rfl

/-- The empty shape `{}`. -/
def emptyShape : Shape := .node []

mutual

/-- `_get_shape_of_dicts(total_shape, item)` (schemas.py lines 76-105).
`total_shape` is never `None` here: the source's `total_shape or {}`
normalisation is applied by the callers (`getShapeOfDicts` below). -/
def gsd (t : Shape) : JSON → Shape
  | .arr xs => gsdList t xs
  | .obj kvs => gsdObj t kvs
  | _ => t

/-- The `isinstance(item, list)` branch: fold every element into the shape. -/
def gsdList (t : Shape) : List JSON → Shape
  | [] => t
  | x :: xs => gsdList (gsd t x) xs

/-- The `isinstance(item, dict)` branch:
`total_shape[key] = _get_shape_of_dicts(total_shape.get(key), val)`. -/
def gsdObj (t : Shape) : List (String × JSON) → Shape
  | [] => t
  | (k, v) :: rest =>
    gsdObj (.node (pySet t.fields k (gsd ((pyGet t.fields k).getD emptyShape) v))) rest

end

/-- `_get_shape_of_dicts` with its `Optional` first argument:
`total_shape = total_shape or {}` (an absent or empty shape becomes `{}`,
which is the same value as far as shapes go). -/
def getShapeOfDicts (t : Option Shape) (item : JSON) : Shape :=
  gsd (t.getD emptyShape) item

/-- The shape of a batch of rows: `batch_shape = {}` then
`batch_shape = _get_shape_of_dicts(batch_shape, row)` for each row
(schemas.py lines 59-63). -/
def mergeShapeRows (rows : List JSON) : Shape :=
  rows.foldl gsd emptyShape

/-! ### Observational equality of shapes

Python compares the produced shape dictionaries with `==`, which ignores key
insertion order.  For key-unique dictionary trees, `==` coincides with "the
same set of key paths is present", which we use as the workhorse notion. -/

/-- Whether the key path `p` is present in the shape tree (the root path `[]`
is always present). -/
def Shape.mem (p : List String) (s : Shape) : Bool :=
  match p, s with
  | [], _ => true
  | k :: ks, .node fs =>
    match pyGet fs k with
    | some s' => Shape.mem ks s'
    | none => false

@[simp] theorem Shape.mem_nil (s : Shape) : Shape.mem [] s = true := rfl

theorem Shape.mem_cons (k : String) (ks : List String) (fs : List (String × Shape)) :
    Shape.mem (k :: ks) (.node fs) =
      match pyGet fs k with
      | some s' => Shape.mem ks s'
      | none => false := rfl

@[simp] theorem Shape.mem_empty (p : List String) :
    Shape.mem p emptyShape = decide (p = []) := by
  cases p <;> simp [Shape.mem, emptyShape, pyGet]

mutual

/-- Path membership in `_get_shape_of_dicts(t, j)` is membership in `t` or in
the shape of `j` alone: the merge is a union of path sets. -/
theorem Shape.mem_gsd (j : JSON) : ∀ (t : Shape) (p : List String),
    Shape.mem p (gsd t j) = (Shape.mem p t || Shape.mem p (gsd emptyShape j)) := by
  intro t p
  cases j with
  | arr xs => simpa [gsd] using Shape.mem_gsdList xs t p
  | obj kvs => simpa [gsd] using Shape.mem_gsdObj kvs t p
  | null => cases p <;> simp [gsd]
  | bool b => cases p <;> simp [gsd]
  | num n => cases p <;> simp [gsd]
  | str s => cases p <;> simp [gsd]

theorem Shape.mem_gsdList (xs : List JSON) : ∀ (t : Shape) (p : List String),
    Shape.mem p (gsdList t xs) = (Shape.mem p t || Shape.mem p (gsdList emptyShape xs)) := by
  intro t p
  cases xs with
  | nil => cases p <;> simp [gsdList]
  | cons x xs =>
    rw [gsdList, gsdList]
    rw [Shape.mem_gsdList xs (gsd t x) p, Shape.mem_gsdList xs (gsd emptyShape x) p,
      Shape.mem_gsd x t p]
    cases Shape.mem p t <;> cases Shape.mem p (gsd emptyShape x) <;>
      cases Shape.mem p (gsdList emptyShape xs) <;> rfl

theorem Shape.mem_gsdObj (kvs : List (String × JSON)) : ∀ (t : Shape) (p : List String),
    Shape.mem p (gsdObj t kvs) = (Shape.mem p t || Shape.mem p (gsdObj emptyShape kvs)) := by
  intro t p
  cases kvs with
  | nil => cases p <;> simp [gsdObj]
  | cons kv rest =>
    obtain ⟨k, v⟩ := kv
    rw [gsdObj, gsdObj]
    have hstep : ∀ (t' : Shape) (q : List String),
        Shape.mem q
            (Shape.node (pySet t'.fields k (gsd ((pyGet t'.fields k).getD emptyShape) v))) =
          (Shape.mem q t' || Shape.mem q (.node [(k, gsd emptyShape v)])) := by
      intro t' q
      obtain ⟨fs⟩ := t'
      cases q with
      | nil => simp
      | cons k' qs =>
        rw [Shape.mem_cons, Shape.mem_cons, Shape.mem_cons]
        rw [Shape.fields_node, pyGet_pySet]
        by_cases hk : k = k'
        · subst hk
          rw [if_pos rfl]
          show Shape.mem qs (gsd ((pyGet fs k).getD emptyShape) v) = _
          rw [Shape.mem_gsd v ((pyGet fs k).getD emptyShape) qs]
          cases hg : pyGet fs k with
          | some s' =>
            simp [pyGet, hg]
          | none =>
            cases qs <;> simp [pyGet, hg]
        · have hk' : pyGet [(k, gsd emptyShape v)] k' = none := by
            simp [pyGet, hk]
          rw [if_neg hk, hk']
          cases pyGet fs k' <;> simp
    have hempty :
        pySet (emptyShape.fields) k (gsd ((pyGet emptyShape.fields k).getD emptyShape) v) =
          [(k, gsd emptyShape v)] := by
      simp [emptyShape, pySet, pyGet]
    rw [hempty]
    rw [Shape.mem_gsdObj rest
        (.node (pySet t.fields k (gsd ((pyGet t.fields k).getD emptyShape) v))) p,
      Shape.mem_gsdObj rest (.node [(k, gsd emptyShape v)]) p,
      hstep t p]
    cases Shape.mem p t <;> cases Shape.mem p (Shape.node [(k, gsd emptyShape v)]) <;>
      cases Shape.mem p (gsdObj emptyShape rest) <;> rfl

end

/-! ### Python `dict` equality on shapes

Python's `dict.__eq__` compares lengths and then, for every key of the left
dict, looks the key up on the right and compares values; insertion order is
ignored.  `pyEqB` renders that verbatim.  All shapes built by
`_get_shape_of_dicts` have unique keys at every level (`wfB`). -/

mutual

/-- Key-uniqueness at every level of a shape tree (an invariant of every
Python dict, maintained by construction). -/
def Shape.wfB : Shape → Bool
  | .node fs => decide ((fs.map Prod.fst).Nodup) && wfFieldsB fs

def wfFieldsB : List (String × Shape) → Bool
  | [] => true
  | (_, s) :: rest => Shape.wfB s && wfFieldsB rest

end

mutual

/-- Python `==` on shape dictionaries: equal length, and every key of the
left tree maps to a `==`-equal subtree on the right. -/
def Shape.pyEqB : Shape → Shape → Bool
  | .node fs, .node gs => (fs.length == gs.length) && pyEqFieldsB fs gs

def pyEqFieldsB : List (String × Shape) → List (String × Shape) → Bool
  | [], _ => true
  | (k, v) :: rest, gs =>
    (match pyGet gs k with
     | some w => Shape.pyEqB v w
     | none => false) && pyEqFieldsB rest gs

end

theorem pyGet_mem {fs : List (String × α)} {k : String} {v : α}
    (h : pyGet fs k = some v) : (k, v) ∈ fs := by
  induction fs with
  | nil => simp [pyGet] at h
  | cons kv rest ih =>
    obtain ⟨k₀, v₀⟩ := kv
    by_cases h0 : k₀ = k
    · subst h0
      rw [pyGet, if_pos rfl] at h
      cases h
      exact List.mem_cons_self _ _
    · rw [pyGet, if_neg h0] at h
      exact List.mem_cons_of_mem _ (ih h)

theorem pyGet_isSome (fs : List (String × α)) (k : String) :
    (pyGet fs k).isSome = true ↔ k ∈ fs.map Prod.fst := by
  induction fs with
  | nil => simp [pyGet]
  | cons kv rest ih =>
    obtain ⟨k₀, v₀⟩ := kv
    by_cases h0 : k₀ = k
    · subst h0; simp [pyGet]
    · have h1 : ¬k = k₀ := fun h => h0 h.symm
      simp [pyGet, h0, h1, ih]

theorem pyGet_of_mem_nodup {fs : List (String × α)} (hnd : (fs.map Prod.fst).Nodup)
    {k : String} {v : α} (h : (k, v) ∈ fs) : pyGet fs k = some v := by
  induction fs with
  | nil => cases h
  | cons kv rest ih =>
    obtain ⟨k₀, v₀⟩ := kv
    rw [List.map_cons, List.nodup_cons] at hnd
    rcases List.mem_cons.mp h with h1 | h1
    · cases h1
      simp [pyGet]
    · have hk : ¬k₀ = k := by
        intro he
        subst he
        exact hnd.1 (List.mem_map.mpr ⟨(k₀, v), h1, rfl⟩)
      simp only [pyGet, if_neg hk]
      exact ih hnd.2 h1

/-- Every binding of `pySet fs k v` is the new binding or an old one. -/
theorem mem_pySet {fs : List (String × α)} {k : String} {v : α} {kv : String × α}
    (h : kv ∈ pySet fs k v) : kv = (k, v) ∨ kv ∈ fs := by
  induction fs with
  | nil => simp [pySet] at h; simp [h]
  | cons kv₀ rest ih =>
    obtain ⟨k₀, v₀⟩ := kv₀
    by_cases h0 : k₀ = k
    · subst h0
      simp only [pySet, if_pos rfl] at h
      rcases List.mem_cons.mp h with h1 | h1
      · exact Or.inl h1
      · exact Or.inr (List.mem_cons_of_mem _ h1)
    · simp only [pySet, if_neg h0] at h
      rcases List.mem_cons.mp h with h1 | h1
      · exact Or.inr (h1 ▸ List.mem_cons_self _ _)
      · rcases ih h1 with h2 | h2
        · exact Or.inl h2
        · exact Or.inr (List.mem_cons_of_mem _ h2)

theorem nodup_map_fst_pySet {fs : List (String × α)} (hnd : (fs.map Prod.fst).Nodup)
    (k : String) (v : α) : ((pySet fs k v).map Prod.fst).Nodup := by
  rw [map_fst_pySet]
  by_cases hs : (pyGet fs k).isSome = true
  · rw [if_pos hs]
    exact hnd
  · rw [if_neg hs]
    have hk : k ∉ fs.map Prod.fst := fun hm => hs ((pyGet_isSome fs k).mpr hm)
    rw [List.nodup_append]
    refine ⟨hnd, List.nodup_singleton _, ?_⟩
    intro a ha hb
    rw [List.mem_singleton] at hb
    exact hk (hb ▸ ha)

theorem wfFieldsB_iff (fs : List (String × Shape)) :
    wfFieldsB fs = true ↔ ∀ kv ∈ fs, Shape.wfB kv.2 = true := by
  induction fs with
  | nil => simp [wfFieldsB]
  | cons kv rest ih =>
    obtain ⟨k, s⟩ := kv
    simp [wfFieldsB, ih, List.forall_mem_cons, Bool.and_eq_true]

theorem wfB_node_iff (fs : List (String × Shape)) :
    Shape.wfB (.node fs) = true ↔
      ((fs.map Prod.fst).Nodup ∧ ∀ kv ∈ fs, Shape.wfB kv.2 = true) := by
  rw [Shape.wfB, Bool.and_eq_true, wfFieldsB_iff]
  simp

@[simp] theorem wfB_empty : Shape.wfB emptyShape = true := by
  rw [emptyShape, wfB_node_iff]
  simp

mutual

/-- `_get_shape_of_dicts` preserves key-uniqueness at every level. -/
theorem Shape.wfB_gsd (j : JSON) : ∀ t : Shape, Shape.wfB t = true → Shape.wfB (gsd t j) = true := by
  intro t ht
  cases j with
  | arr xs => rw [gsd]; exact Shape.wfB_gsdList xs t ht
  | obj kvs => rw [gsd]; exact Shape.wfB_gsdObj kvs t ht
  | null => simpa [gsd] using ht
  | bool b => simpa [gsd] using ht
  | num n => simpa [gsd] using ht
  | str s => simpa [gsd] using ht

theorem Shape.wfB_gsdList (xs : List JSON) :
    ∀ t : Shape, Shape.wfB t = true → Shape.wfB (gsdList t xs) = true := by
  intro t ht
  cases xs with
  | nil => rwa [gsdList]
  | cons x xs =>
    rw [gsdList]
    exact Shape.wfB_gsdList xs _ (Shape.wfB_gsd x t ht)

theorem Shape.wfB_gsdObj (kvs : List (String × JSON)) :
    ∀ t : Shape, Shape.wfB t = true → Shape.wfB (gsdObj t kvs) = true := by
  intro t ht
  cases kvs with
  | nil => rwa [gsdObj]
  | cons kv rest =>
    obtain ⟨k, v⟩ := kv
    rw [gsdObj]
    apply Shape.wfB_gsdObj rest
    obtain ⟨fs⟩ := t
    rw [wfB_node_iff] at ht
    have hsub : Shape.wfB ((pyGet fs k).getD emptyShape) = true := by
      cases hg : pyGet fs k with
      | some s => exact ht.2 (k, s) (pyGet_mem hg)
      | none => simp
    have hnew : Shape.wfB (gsd ((pyGet fs k).getD emptyShape) v) = true :=
      Shape.wfB_gsd v _ hsub
    rw [wfB_node_iff]
    refine ⟨nodup_map_fst_pySet ht.1 _ _, ?_⟩
    intro kv hkv
    rcases mem_pySet hkv with h1 | h1
    · rw [h1]
      exact hnew
    · exact ht.2 kv h1

end

theorem Shape.mem_key (fs : List (String × Shape)) (k : String) :
    Shape.mem [k] (.node fs) = (pyGet fs k).isSome := by
  rw [Shape.mem_cons]
  cases pyGet fs k <;> simp

theorem Shape.mem_cons_of_get {fs : List (String × Shape)} {k : String} {s : Shape}
    (h : pyGet fs k = some s) (ks : List String) :
    Shape.mem (k :: ks) (.node fs) = Shape.mem ks s := by
  rw [Shape.mem_cons, h]

theorem pyEqFieldsB_of_forall (gs : List (String × Shape)) (fs : List (String × Shape))
    (h : ∀ k v, (k, v) ∈ fs → ∃ w, pyGet gs k = some w ∧ Shape.pyEqB v w = true) :
    pyEqFieldsB fs gs = true := by
  induction fs with
  | nil => rfl
  | cons kv rest ih =>
    obtain ⟨k, v⟩ := kv
    obtain ⟨w, hw, he⟩ := h k v (List.mem_cons_self _ _)
    rw [pyEqFieldsB, hw]
    simp only [he, Bool.true_and]
    exact ih fun k v hm => h k v (List.mem_cons_of_mem _ hm)

/-- Key-unique shape trees with the same present paths are Python-`==`. -/
theorem Shape.pyEqB_of_mem_eq : ∀ a b : Shape, Shape.wfB a = true → Shape.wfB b = true →
    (∀ p, Shape.mem p a = Shape.mem p b) → Shape.pyEqB a b = true
  | .node fs, .node gs, ha, hb, hmem => by
    rw [Shape.pyEqB]
    rw [wfB_node_iff] at ha hb
    have hkeys : ∀ k, (pyGet fs k).isSome = (pyGet gs k).isSome := by
      intro k
      have h := hmem [k]
      rwa [Shape.mem_key, Shape.mem_key] at h
    have hmemkeys : ∀ k, k ∈ fs.map Prod.fst ↔ k ∈ gs.map Prod.fst := by
      intro k
      rw [← pyGet_isSome, ← pyGet_isSome, hkeys k]
    have hperm : List.Perm (fs.map Prod.fst) (gs.map Prod.fst) :=
      (List.perm_ext_iff_of_nodup ha.1 hb.1).mpr hmemkeys
    have hlen : fs.length = gs.length := by
      simpa using hperm.length_eq
    have hfields : pyEqFieldsB fs gs = true := by
      apply pyEqFieldsB_of_forall
      intro k v hkv
      have hgetf : pyGet fs k = some v := pyGet_of_mem_nodup ha.1 hkv
      have hsome : (pyGet gs k).isSome = true := by
        rw [← hkeys]
        simp [hgetf]
      obtain ⟨w, hw⟩ := Option.isSome_iff_exists.mp hsome
      refine ⟨w, hw, ?_⟩
      refine Shape.pyEqB_of_mem_eq v w (ha.2 (k, v) hkv) (hb.2 (k, w) (pyGet_mem hw)) ?_
      intro p
      have h := hmem (k :: p)
      rwa [Shape.mem_cons_of_get hgetf, Shape.mem_cons_of_get hw] at h
    simp [hlen, hfields]
termination_by a => sizeOf a
decreasing_by
  have h1 := List.sizeOf_lt_of_mem hkv
  simp only [Prod.mk.sizeOf_spec] at h1
  simp only [Shape.node.sizeOf_spec]
  omega

/-- C6: the shape merge of `_get_shape_of_dicts` over a batch is commutative
and idempotent, up to Python dict equality: `[A, B]`, `[B, A]` and
`[A, B, A]` all produce `==`-equal shape trees. -/
theorem shape_merge_comm_idem (A B : JSON) :
    Shape.pyEqB (mergeShapeRows [A, B]) (mergeShapeRows [B, A]) = true ∧
      Shape.pyEqB (mergeShapeRows [A, B, A]) (mergeShapeRows [A, B]) = true := by
  have wf2 : ∀ X Y : JSON, Shape.wfB (mergeShapeRows [X, Y]) = true := by
    intro X Y
    exact Shape.wfB_gsd Y _ (Shape.wfB_gsd X _ wfB_empty)
  have hm : ∀ (X Y : JSON) (p : List String),
      Shape.mem p (mergeShapeRows [X, Y]) =
        (Shape.mem p (gsd emptyShape X) || Shape.mem p (gsd emptyShape Y)) := by
    intro X Y p
    show Shape.mem p (gsd (gsd emptyShape X) Y) = _
    rw [Shape.mem_gsd Y (gsd emptyShape X) p]
  constructor
  · apply Shape.pyEqB_of_mem_eq _ _ (wf2 A B) (wf2 B A)
    intro p
    rw [hm, hm]
    exact Bool.or_comm _ _
  · have wf3 : Shape.wfB (mergeShapeRows [A, B, A]) = true :=
      Shape.wfB_gsd A _ (Shape.wfB_gsd B _ (Shape.wfB_gsd A _ wfB_empty))
    apply Shape.pyEqB_of_mem_eq _ _ wf3 (wf2 A B)
    intro p
    show Shape.mem p (gsd (gsd (gsd emptyShape A) B) A) =
      Shape.mem p (gsd (gsd emptyShape A) B)
    rw [Shape.mem_gsd A (gsd (gsd emptyShape A) B) p,
      Shape.mem_gsd B (gsd emptyShape A) p]
    cases Shape.mem p (gsd emptyShape A) <;> cases Shape.mem p (gsd emptyShape B) <;> rfl

/-! ## HTTP layer (`http.py`)

`http_request` issues attempts through a transport (`httpx`), abstracted
here as a stream of per-attempt outcomes, and communicates through four
optional callbacks.  We record every externally observable action (requests
on the wire, callback invocations, sleeps) in a trace.  Header dictionaries
live in a small explicit heap (`List HeadersMap`, addressed by index) so
that the copy-before-modify behaviour of line 103 is a provable statement
rather than a modelling artifact. -/

/-- A Python header dict: string keys and values, insertion ordered. -/
abbrev HeadersMap := List (String × String)

/-- An abstraction of a `Retry-After` header value (header parsing and the
clock are stdlib collaborators):
* `intVal n`: the text parses as a Python `int` of value `n`;
* `dateVal s`: the text parses as an HTTP-date whose distance from now,
  truncated to whole seconds (`int(delay.total_seconds())`), is `s`;
* `malformed`: the text parses as neither. -/
inductive RetryAfterValue where
  | intVal (n : Int)
  | dateVal (secs : Int)
  | malformed
  deriving DecidableEq, Repr

/-- The part of an `httpx.Response` the embedded code observes. -/
structure Response where
  status : Nat
  retryAfter : Option RetryAfterValue
  deriving DecidableEq, Repr

/-- `parse_retry_after(response, default)` (http.py lines 34-57).
With no header, `value` is the integer `default` and `int(value)` succeeds;
with an integer-parsing header the integer is used; with a date-parsing
header the seconds-until-then; otherwise the raw `default` is returned
(note: without the `max(0, ...)` floor). -/
def parse_retry_after (r : Response) (dflt : Int) : Int :=
  match r.retryAfter with
  | none => max 0 dflt
  | some (.intVal n) => max 0 n
  | some (.dateVal s) => max 0 s
  | some .malformed => dflt

/-- Whether a raised `NetworkError` is the `Temporary` or the `Fatal`
subclass. -/
inductive NetKind where
  | temporary
  | fatal
  deriving DecidableEq, Repr

/-- A raised `NetworkError`: its subclass and its optional captured
response (`None` for transport-level failures). -/
structure NetworkError where
  kind : NetKind
  response : Option Response
  deriving DecidableEq, Repr

/-- The retryable status codes of `_request_once` (http.py lines 211-221). -/
def temporaryStatuses : List Nat := [408, 429, 500, 502, 503, 504]

/-- What the transport does for one attempt: raise an `httpx.HTTPError`
before a response exists, or deliver a response (of any status). -/
inductive AttemptOutcome where
  | transportError
  | response (r : Response)

/-- `_request_once` (http.py lines 155-231), reduced to its control flow:
a transport error is a fatal `NetworkError` with no response; a non-2xx
status raises `TemporaryNetworkError` for the retryable set and
`FatalNetworkError` otherwise (carrying the response); a 2xx response is
returned.  (The human-readable message extraction is elided: no embedded
property concerns message text.) -/
def requestOnce (o : AttemptOutcome) : Except NetworkError Response :=
  match o with
  | .transportError => .error ⟨.fatal, none⟩
  | .response r =>
    if 200 ≤ r.status ∧ r.status < 300 then .ok r
    else if r.status ∈ temporaryStatuses then .error ⟨.temporary, some r⟩
    else .error ⟨.fatal, some r⟩

/-- An externally observable action of `http_request`. -/
inductive Event where
  | requestCB
  | attempt (i : Nat) (headers : HeadersMap)
  | authCB (i : Nat)
  | errorCB (e : NetworkError)
  | retryCB (resp : Option Response) (secs : Int)
  | sleep (resp : Option Response) (secs : Int)
  deriving DecidableEq, Repr

/-- The environment of one `http_request` call: the transport's outcome for
the i-th request on the wire, the headers produced by the i-th
`auth_callback` call, and which optional callbacks were supplied. -/
structure HttpConfig where
  server : Nat → AttemptOutcome
  authHeaders : Nat → HeadersMap
  hasRequestCB : Bool
  hasErrorCB : Bool
  hasRetryCB : Bool
  hasAuthCB : Bool

/-- Mutable state threaded through the retry loop. -/
structure LoopState where
  heap : List HeadersMap
  trace : List Event
  attempts : Nat
  auths : Nat
  deriving Repr

/-- The overall outcome of `http_request`: a returned response, a raised
`NetworkError`, or the unreachable `RuntimeError` of line 152. -/
inductive HttpResult where
  | ok (r : Response)
  | netError (e : NetworkError)
  | runtimeError
  deriving DecidableEq, Repr

/-- The current value of the headers dict at heap address `ref`. -/
def heapHeaders (s : LoopState) (ref : Nat) : HeadersMap :=
  (s.heap[ref]?).getD []

/-- Record an event only when the corresponding callback was supplied. -/
def emitIf (b : Bool) (e : Event) (s : LoopState) : LoopState :=
  if b then { s with trace := s.trace ++ [e] } else s

/-- One `_request_once` call: consume the next transport outcome and record
the request (with the headers it was sent with). -/
def doAttempt (cfg : HttpConfig) (ref : Nat) (s : LoopState) :
    Except NetworkError Response × LoopState :=
  (requestOnce (cfg.server s.attempts),
   { s with trace := s.trace ++ [.attempt s.attempts (heapHeaders s ref)],
            attempts := s.attempts + 1 })

/-- The 401 re-authentication step (http.py lines 120-127): if the caught
error carries a response with status 401 and an `auth_callback` was
supplied, fetch fresh headers, `headers.update(...)` them into the request
headers, and try exactly once more; otherwise keep the error. -/
def authStep (cfg : HttpConfig) (ref : Nat) (e : NetworkError) (s : LoopState) :
    Except NetworkError Response × LoopState :=
  match e.response with
  | some r =>
    if r.status = 401 ∧ cfg.hasAuthCB = true then
      let newHeaders := pyUpdate (heapHeaders s ref) (cfg.authHeaders s.auths)
      doAttempt cfg ref
        { s with heap := s.heap.set ref newHeaders,
                 trace := s.trace ++ [.authCB s.auths],
                 auths := s.auths + 1 }
    else (.error e, s)
  | none => (.error e, s)

/-- `delay_seconds` computation (http.py lines 142-144): minutes to seconds,
capped by `Retry-After` only when a response is available. -/
def computeDelaySeconds (resp : Option Response) (d : Int) : Int :=
  match resp with
  | some r => min (parse_retry_after r (d * 60)) (d * 60)
  | none => d * 60

mutual

/-- The retry loop of `http_request` (http.py lines 106-152), iterating over
the delay list (`None` marking the final no-retry slot).  The body of one
iteration is split into named stages so that each can be reasoned about:
`httpLoop` fires the request callback and attempts, `httpAfterAttempt`
handles the 401 sub-retry, `httpAfterAuth` the error callback, the
raise-or-sleep decision and the sleep. -/
def httpLoop (cfg : HttpConfig) (ref : Nat) :
    List (Option Int) → LoopState → HttpResult × LoopState
  | [], s => (.runtimeError, s)
  | delay :: rest, s =>
    httpAfterAttempt cfg ref delay rest (doAttempt cfg ref (emitIf cfg.hasRequestCB .requestCB s))
termination_by delays _ => 3 * delays.length

/-- Handle the outcome of the main attempt of one iteration: return a
response, or run the 401 re-authentication step on the error. -/
def httpAfterAttempt (cfg : HttpConfig) (ref : Nat) (delay : Option Int)
    (rest : List (Option Int)) : Except NetworkError Response × LoopState →
    HttpResult × LoopState
  | (.ok r, s) => (.ok r, s)
  | (.error e, s) => httpAfterAuth cfg ref delay rest (authStep cfg ref e s)
termination_by _ => 3 * rest.length + 2

/-- Handle the error surviving the 401 step: fire the error callback, then
raise (final slot or fatal error) or compute the wait, fire the retry
callback, sleep and loop. -/
def httpAfterAuth (cfg : HttpConfig) (ref : Nat) (delay : Option Int)
    (rest : List (Option Int)) : Except NetworkError Response × LoopState →
    HttpResult × LoopState
  | (.ok r, s) => (.ok r, s)
  | (.error e, s) =>
    let s := emitIf cfg.hasErrorCB (.errorCB e) s
    if delay.isNone ∨ e.kind = .fatal then (.netError e, s)
    else
      let secs := computeDelaySeconds e.response (delay.getD 0)
      let s := emitIf cfg.hasRetryCB (.retryCB e.response secs) s
      httpLoop cfg ref rest { s with trace := s.trace ++ [.sleep e.response secs] }
termination_by _ => 3 * rest.length + 1

end

/-- The caller's headers value: `headers or {}` (http.py line 103). -/
def callerHeaders (heap : List HeadersMap) (headersRef : Option Nat) : HeadersMap :=
  match headersRef with
  | some r => (heap[r]?).getD []
  | none => []

/-- `http_request` (http.py lines 60-152): default the retry plan to
`[1, 1]`, append the final `None` slot, copy the caller's headers dict into
a fresh heap cell, and run the loop. -/
def http_request (cfg : HttpConfig) (heap : List HeadersMap) (headersRef : Option Nat)
    (retryDelays : Option (List Int)) : HttpResult × LoopState :=
  httpLoop cfg heap.length ((retryDelays.getD [1, 1]).map some ++ [none])
    ⟨heap ++ [callerHeaders heap headersRef], [], 0, 0⟩

/-! ### Facts about single attempts and delays -/

theorem requestOnce_temp {r : Response} (h : r.status ∈ temporaryStatuses) :
    requestOnce (.response r) = .error ⟨.temporary, some r⟩ := by
  have h2 : ¬(200 ≤ r.status ∧ r.status < 300) := by
    intro hc
    simp only [temporaryStatuses, List.mem_cons, List.not_mem_nil, or_false] at h
    rcases h with h | h | h | h | h | h <;> omega
  rw [requestOnce, if_neg h2, if_pos h]

theorem requestOnce_fatal {r : Response} (h1 : ¬(200 ≤ r.status ∧ r.status < 300))
    (h2 : r.status ∉ temporaryStatuses) :
    requestOnce (.response r) = .error ⟨.fatal, some r⟩ := by
  rw [requestOnce, if_neg h1, if_neg h2]

theorem computeDelay_noRetryAfter {r : Response} (h : r.retryAfter = none)
    {d : Int} (hd : 0 ≤ d) : computeDelaySeconds (some r) d = d * 60 := by
  have h60 : (0 : Int) ≤ d * 60 := by positivity
  rw [computeDelaySeconds, parse_retry_after, h, max_eq_right h60, min_self]

/-- **C5**: a single attempt raises a fatal error with no captured response
on every transport-level exception; for a non-2xx response it raises a
temporary error exactly when the status is one of
{408, 429, 500, 502, 503, 504} and otherwise a fatal error carrying the
response; a 2xx response is returned without raising. -/
theorem requestOnce_classification (r : Response) :
    requestOnce .transportError = .error ⟨.fatal, none⟩ ∧
      (200 ≤ r.status ∧ r.status < 300 → requestOnce (.response r) = .ok r) ∧
      (¬(200 ≤ r.status ∧ r.status < 300) → r.status ∈ [408, 429, 500, 502, 503, 504] →
        requestOnce (.response r) = .error ⟨.temporary, some r⟩) ∧
      (¬(200 ≤ r.status ∧ r.status < 300) → r.status ∉ [408, 429, 500, 502, 503, 504] →
        requestOnce (.response r) = .error ⟨.fatal, some r⟩) := by
  refine ⟨rfl, ?_, ?_, ?_⟩
  · intro h
    rw [requestOnce, if_pos h]
  · intro h1 h2
    exact requestOnce_temp h2
  · intro h1 h2
    exact requestOnce_fatal h1 h2

/-- Witness for C5: a 2xx returns, 503 is temporary, 404 is fatal. -/
theorem requestOnce_classification_witness :
    requestOnce (.response ⟨200, none⟩) = .ok ⟨200, none⟩ ∧
      requestOnce (.response ⟨503, none⟩) = .error ⟨.temporary, some ⟨503, none⟩⟩ ∧
      requestOnce (.response ⟨404, none⟩) = .error ⟨.fatal, some ⟨404, none⟩⟩ :=
  ⟨(requestOnce_classification ⟨200, none⟩).2.1 (by decide),
   (requestOnce_classification ⟨503, none⟩).2.2.1 (by decide) (by decide),
   (requestOnce_classification ⟨404, none⟩).2.2.2 (by decide) (by decide)⟩

/-- **C4 counterexample**: with an unparseable header value and default
delay `-1`, `parse_retry_after` returns `-1` (the default-fallback path is
not floored at zero), contradicting the claim's "in all cases the returned
value is non-negative". -/
theorem parse_retry_after_counterexample :
    parse_retry_after ⟨503, some .malformed⟩ (-1) = -1 ∧ ¬(0 ≤ (-1 : Int)) :=
  ⟨rfl, by decide⟩

/-- **C4 (amended)**: `parse_retry_after` returns the integer itself for a
header parsing as a non-negative integer, `0` for an HTTP-date in the past,
and the supplied default when the value parses as neither; the result is
non-negative whenever the supplied default is non-negative (only the
unparseable-value path can echo a negative default). -/
theorem parse_retry_after_spec (r : Response) (d : Int) :
    (∀ n : Int, r.retryAfter = some (.intVal n) → 0 ≤ n → parse_retry_after r d = n) ∧
      (∀ s : Int, r.retryAfter = some (.dateVal s) → s ≤ 0 → parse_retry_after r d = 0) ∧
      (r.retryAfter = some .malformed → parse_retry_after r d = d) ∧
      (0 ≤ d → 0 ≤ parse_retry_after r d) := by
  refine ⟨?_, ?_, ?_, ?_⟩
  · intro n h hn
    rw [parse_retry_after, h]
    exact max_eq_right hn
  · intro s h hs
    rw [parse_retry_after, h]
    exact max_eq_left hs
  · intro h
    rw [parse_retry_after, h]
  · intro hd
    rw [parse_retry_after]
    cases h : r.retryAfter with
    | none => exact le_max_left _ _
    | some v => cases v <;> first | exact le_max_left _ _ | exact hd

/-- Witness for C4: integer header `10`, past date, unparseable value, and
the non-negativity of the default path. -/
theorem parse_retry_after_spec_witness :
    parse_retry_after ⟨429, some (.intVal 10)⟩ 120 = 10 ∧
      parse_retry_after ⟨429, some (.dateVal (-5))⟩ 120 = 0 ∧
      parse_retry_after ⟨429, some .malformed⟩ 120 = 120 ∧
      0 ≤ parse_retry_after ⟨429, none⟩ 120 :=
  ⟨(parse_retry_after_spec ⟨429, some (.intVal 10)⟩ 120).1 10 rfl (by decide),
   (parse_retry_after_spec ⟨429, some (.dateVal (-5))⟩ 120).2.1 (-5) rfl (by decide),
   (parse_retry_after_spec ⟨429, some .malformed⟩ 120).2.2.1 rfl,
   (parse_retry_after_spec ⟨429, none⟩ 120).2.2.2 (by decide)⟩

/-! ### The retry schedule scenario (C1) -/

theorem getElem?_append_length (l : List α) (a : α) : (l ++ [a])[l.length]? = some a := by
  induction l with
  | nil => rfl
  | cons x xs ih => simp


/-- One loop iteration in the always-temporary scenario with request and
error callbacks supplied, no retry callback, and no auth callback. -/
theorem httpLoop_temp_step (cfg : HttpConfig) (ref : Nat) (d : Int) (rest : List (Option Int))
    (s : LoopState) (r : Response)
    (hserver : cfg.server s.attempts = .response r)
    (h1 : cfg.hasRequestCB = true) (h2 : cfg.hasErrorCB = true)
    (h3 : cfg.hasRetryCB = false) (h4 : cfg.hasAuthCB = false)
    (htemp : r.status ∈ temporaryStatuses) (hra : r.retryAfter = none) (hd : 0 ≤ d) :
    httpLoop cfg ref (some d :: rest) s =
      httpLoop cfg ref rest
        { s with
          trace := s.trace ++ [.requestCB, .attempt s.attempts (heapHeaders s ref),
            .errorCB ⟨.temporary, some r⟩, .sleep (some r) (d * 60)],
          attempts := s.attempts + 1 } := by
  have hcd := computeDelay_noRetryAfter hra hd
  rw [httpLoop]
  simp only [h1, h2, h3, h4, emitIf, if_true, if_false, doAttempt, authStep, heapHeaders,
    hserver, requestOnce_temp htemp, httpAfterAttempt, httpAfterAuth]
  simp [hcd, httpAfterAuth, h1, h2, h3, h4, emitIf]

/-- The final loop iteration (delay slot `None`) in the always-temporary
scenario: raise the last error. -/
theorem httpLoop_last_step (cfg : HttpConfig) (ref : Nat) (rest : List (Option Int))
    (s : LoopState) (r : Response)
    (hserver : cfg.server s.attempts = .response r)
    (h1 : cfg.hasRequestCB = true) (h2 : cfg.hasErrorCB = true) (h4 : cfg.hasAuthCB = false)
    (htemp : r.status ∈ temporaryStatuses) :
    httpLoop cfg ref (none :: rest) s =
      (.netError ⟨.temporary, some r⟩,
       { s with
         trace := s.trace ++ [.requestCB, .attempt s.attempts (heapHeaders s ref),
           .errorCB ⟨.temporary, some r⟩],
         attempts := s.attempts + 1 }) := by
  rw [httpLoop]
  simp only [h1, h2, h4, emitIf, if_true, doAttempt, authStep, heapHeaders,
    hserver, requestOnce_temp htemp, httpAfterAttempt, httpAfterAuth]
  simp [httpAfterAuth, h1, h2, h4, emitIf]

/-- **C1**: with retry delays `[1, 2]`, no auth callback, and a server whose
every attempt yields a temporary-class status (and no `Retry-After` header),
`http_request` makes exactly 3 attempts, invokes the request callback 3
times and the error callback 3 times, sleeps 60 then 120 seconds, and
raises the final temporary error. -/
theorem http_request_retry_schedule
    (R : Nat → Response) (auth : Nat → HeadersMap) (heap : List HeadersMap) (href : Option Nat)
    (htemp : ∀ i, (R i).status ∈ temporaryStatuses)
    (hra : ∀ i, (R i).retryAfter = none) :
    http_request ⟨fun i => .response (R i), auth, true, true, false, false⟩ heap href
        (some [1, 2]) =
      (.netError ⟨.temporary, some (R 2)⟩,
       ⟨heap ++ [callerHeaders heap href],
        [.requestCB, .attempt 0 (callerHeaders heap href),
         .errorCB ⟨.temporary, some (R 0)⟩, .sleep (some (R 0)) 60,
         .requestCB, .attempt 1 (callerHeaders heap href),
         .errorCB ⟨.temporary, some (R 1)⟩, .sleep (some (R 1)) 120,
         .requestCB, .attempt 2 (callerHeaders heap href),
         .errorCB ⟨.temporary, some (R 2)⟩],
        3, 0⟩) := by
  rw [http_request]
  have hh : ∀ tr a b,
      heapHeaders ⟨heap ++ [callerHeaders heap href], tr, a, b⟩ heap.length =
        callerHeaders heap href := by
    intro tr a b
    simp [heapHeaders, getElem?_append_length]
  rw [show (((some [1, 2] : Option (List Int)).getD [1, 1]).map some ++ [none]) =
    [some 1, some 2, none] from rfl]
  rw [httpLoop_temp_step _ _ _ _ _ (R 0) rfl rfl rfl rfl rfl (htemp 0) (hra 0) (by decide)]
  rw [httpLoop_temp_step _ _ _ _ _ (R 1) rfl rfl rfl rfl rfl (htemp 1) (hra 1) (by decide)]
  rw [httpLoop_last_step _ _ _ _ (R 2) rfl rfl rfl rfl (htemp 2)]
  simp [hh]

/-- Witness for C1: a server that always answers 503. -/
theorem http_request_retry_schedule_witness :
    http_request ⟨fun _ => .response ⟨503, none⟩, fun _ => [], true, true, false, false⟩
        [] none (some [1, 2]) =
      (.netError ⟨.temporary, some ⟨503, none⟩⟩,
       ⟨[[]],
        [.requestCB, .attempt 0 [], .errorCB ⟨.temporary, some ⟨503, none⟩⟩,
         .sleep (some ⟨503, none⟩) 60,
         .requestCB, .attempt 1 [], .errorCB ⟨.temporary, some ⟨503, none⟩⟩,
         .sleep (some ⟨503, none⟩) 120,
         .requestCB, .attempt 2 [], .errorCB ⟨.temporary, some ⟨503, none⟩⟩],
        3, 0⟩) :=
  http_request_retry_schedule (fun _ => ⟨503, none⟩) (fun _ => []) [] none
    (fun _ => by show (503 : Nat) ∈ temporaryStatuses; decide) (fun _ => rfl)

/-! ### Structural facts about the loop state -/

theorem emitIf_trace (b : Bool) (e : Event) (s : LoopState) :
    (emitIf b e s).trace = s.trace ++ (if b then [e] else []) := by
  cases b <;> simp [emitIf]

@[simp] theorem emitIf_heap (b : Bool) (e : Event) (s : LoopState) :
    (emitIf b e s).heap = s.heap := by
  cases b <;> simp [emitIf]

theorem doAttempt_trace (cfg : HttpConfig) (ref : Nat) (s : LoopState) :
    ((doAttempt cfg ref s).2).trace = s.trace ++ [.attempt s.attempts (heapHeaders s ref)] := rfl

theorem doAttempt_heap (cfg : HttpConfig) (ref : Nat) (s : LoopState) :
    ((doAttempt cfg ref s).2).heap = s.heap := rfl

theorem sleep_mem_doAttempt (cfg : HttpConfig) (ref : Nat) (s : LoopState)
    (resp : Option Response) (secs : Int) :
    (Event.sleep resp secs ∈ ((doAttempt cfg ref s).2).trace) ↔
      Event.sleep resp secs ∈ s.trace := by
  rw [doAttempt_trace]
  simp

theorem sleep_mem_emitIf (b : Bool) (e : Event) (s : LoopState)
    (he : ∀ r₂ s₂, e ≠ .sleep r₂ s₂) (resp : Option Response) (secs : Int) :
    (Event.sleep resp secs ∈ (emitIf b e s).trace) ↔ Event.sleep resp secs ∈ s.trace := by
  rw [emitIf_trace]
  cases b <;> simp
  intro h
  exact absurd h.symm (he resp secs)

theorem sleep_mem_authStep (cfg : HttpConfig) (ref : Nat) (e : NetworkError) (s : LoopState)
    (resp : Option Response) (secs : Int) :
    (Event.sleep resp secs ∈ ((authStep cfg ref e s).2).trace) ↔
      Event.sleep resp secs ∈ s.trace := by
  rw [authStep]
  split
  · split
    · rw [sleep_mem_doAttempt]
      simp
    · exact Iff.rfl
  · exact Iff.rfl

theorem authStep_heap (cfg : HttpConfig) (ref : Nat) (e : NetworkError) (s : LoopState)
    {i : Nat} (h : i ≠ ref) :
    ((authStep cfg ref e s).2).heap[i]? = s.heap[i]? := by
  rw [authStep]
  split
  · split
    · rw [doAttempt_heap]
      exact List.getElem?_set_ne (fun he => h he.symm)
    · rfl
  · rfl

/-! ### The header-dict frame property (C10) -/

/-- The retry loop never writes to any heap cell other than its own
headers cell `ref`. -/
theorem httpLoop_heap_frame (cfg : HttpConfig) (ref : Nat) (delays : List (Option Int)) :
    ∀ (s : LoopState) {i : Nat}, i ≠ ref →
      ((httpLoop cfg ref delays s).2).heap[i]? = s.heap[i]? := by
  induction delays with
  | nil =>
    intro s i hne
    rw [httpLoop]
  | cons delay rest ih =>
    intro s i hne
    rw [httpLoop]
    rcases hda : doAttempt cfg ref (emitIf cfg.hasRequestCB .requestCB s) with ⟨out, s2⟩
    have hs2 : s2.heap = s.heap := by
      have h := congrArg (fun x => x.2.heap) hda
      simpa [doAttempt_heap] using h.symm
    cases out with
    | ok r =>
      rw [httpAfterAttempt, hs2]
    | error e =>
      rw [httpAfterAttempt]
      rcases hau : authStep cfg ref e s2 with ⟨out2, s3⟩
      have hs3 : s3.heap[i]? = s2.heap[i]? := by
        have h := congrArg (fun x => x.2) hau
        rw [show s3 = (authStep cfg ref e s2).2 from h.symm]
        exact authStep_heap cfg ref e s2 hne
      cases out2 with
      | ok r =>
        rw [httpAfterAuth]
        show s3.heap[i]? = s.heap[i]?
        rw [hs3, hs2]
      | error e1 =>
        simp only [httpAfterAuth]
        by_cases hstop : (delay.isNone = true ∨ e1.kind = NetKind.fatal)
        · rw [if_pos hstop]
          show ((emitIf cfg.hasErrorCB (Event.errorCB e1) s3).heap)[i]? = s.heap[i]?
          rw [emitIf_heap, hs3, hs2]
        · rw [if_neg hstop, ih _ hne]
          show ((emitIf cfg.hasRetryCB _ (emitIf cfg.hasErrorCB (Event.errorCB e1) s3)).heap)[i]? =
            s.heap[i]?
          rw [emitIf_heap, emitIf_heap, hs3, hs2]

/-- **C10**: `http_request` never mutates the caller-supplied headers dict:
it copies the mapping into a fresh heap cell before the first attempt, so
every pre-existing heap cell (in particular the caller's) is unchanged when
the call completes, whether it returns or raises. -/
theorem http_request_headers_frame (cfg : HttpConfig) (heap : List HeadersMap)
    (href : Option Nat) (rd : Option (List Int)) (i : Nat) (hi : i < heap.length) :
    ((http_request cfg heap href rd).2).heap[i]? = heap[i]? := by
  rw [http_request, httpLoop_heap_frame cfg heap.length _ _ (Nat.ne_of_lt hi)]
  exact List.getElem?_append_left hi

/-- Witness for C10: a 401-answering server with an auth callback that does
merge new headers into the request headers; the caller's dict (heap cell 0)
is untouched. -/
theorem http_request_headers_frame_witness :
    ((http_request
        ⟨fun _ => .response ⟨401, none⟩, fun _ => [("authorization", "b")], true, true, true, true⟩
        [[("k", "v")]] (some 0) none).2).heap[0]? = [[("k", "v")]][0]? :=
  http_request_headers_frame _ _ _ _ 0 (by decide)

/-! ### The Retry-After sleep bound (C2) -/

/-- Every sleep the retry loop performs was computed by
`computeDelaySeconds` from some delay of the remaining plan, paired with
the failed attempt's response. -/
theorem httpLoop_sleep_spec (cfg : HttpConfig) (ref : Nat) (delays : List (Option Int)) :
    ∀ (s : LoopState) (resp : Option Response) (secs : Int),
      Event.sleep resp secs ∈ ((httpLoop cfg ref delays s).2).trace →
      Event.sleep resp secs ∈ s.trace ∨
        ∃ d : Int, some d ∈ delays ∧ secs = computeDelaySeconds resp d := by
  induction delays with
  | nil =>
    intro s resp secs h
    rw [httpLoop] at h
    exact Or.inl h
  | cons delay rest ih =>
    intro s resp secs h
    rw [httpLoop] at h
    rcases hda : doAttempt cfg ref (emitIf cfg.hasRequestCB .requestCB s) with ⟨out, s2⟩
    rw [hda] at h
    have hs2mem : Event.sleep resp secs ∈ s2.trace → Event.sleep resp secs ∈ s.trace := by
      intro hm
      have he : s2 = (doAttempt cfg ref (emitIf cfg.hasRequestCB .requestCB s)).2 :=
        (congrArg Prod.snd hda).symm
      rw [he, sleep_mem_doAttempt, sleep_mem_emitIf] at hm
      · exact hm
      · intro r₂ s₂
        simp
    cases out with
    | ok r =>
      rw [httpAfterAttempt] at h
      exact Or.inl (hs2mem h)
    | error e =>
      rw [httpAfterAttempt] at h
      rcases hau : authStep cfg ref e s2 with ⟨out2, s3⟩
      rw [hau] at h
      have hs3mem : Event.sleep resp secs ∈ s3.trace → Event.sleep resp secs ∈ s2.trace := by
        intro hm
        have he : s3 = (authStep cfg ref e s2).2 := (congrArg Prod.snd hau).symm
        rw [he, sleep_mem_authStep] at hm
        exact hm
      cases out2 with
      | ok r =>
        rw [httpAfterAuth] at h
        exact Or.inl (hs2mem (hs3mem h))
      | error e1 =>
        simp only [httpAfterAuth] at h
        by_cases hstop : (delay.isNone = true ∨ e1.kind = NetKind.fatal)
        · rw [if_pos hstop] at h
          rw [sleep_mem_emitIf] at h
          · exact Or.inl (hs2mem (hs3mem h))
          · intro r₂ s₂
            simp
        · rw [if_neg hstop] at h
          rcases ih _ resp secs h with hin | ⟨d, hd, hs⟩
          · have hin' : Event.sleep resp secs ∈
                (emitIf cfg.hasRetryCB
                  (Event.retryCB e1.response (computeDelaySeconds e1.response (delay.getD 0)))
                  (emitIf cfg.hasErrorCB (Event.errorCB e1) s3)).trace ++
                [Event.sleep e1.response (computeDelaySeconds e1.response (delay.getD 0))] := hin
            rw [List.mem_append] at hin'
            rcases hin' with hin1 | hin2
            · rw [sleep_mem_emitIf, sleep_mem_emitIf] at hin1
              · exact Or.inl (hs2mem (hs3mem hin1))
              · intro r₂ s₂
                simp
              · intro r₂ s₂
                simp
            · rw [List.mem_singleton] at hin2
              injection hin2 with hresp hsecs
              have hdelay : ∃ d0 : Int, delay = some d0 := by
                cases delay with
                | none => exact absurd (Or.inl rfl) hstop
                | some d0 => exact ⟨d0, rfl⟩
              obtain ⟨d0, rfl⟩ := hdelay
              refine Or.inr ⟨d0, List.mem_cons_self _ _, ?_⟩
              rw [hsecs, hresp]
              rfl
          · exact Or.inr ⟨d, List.mem_cons_of_mem _ hd, hs⟩

/-- **C2**: whenever `http_request` sleeps before a retry, the slept time
was computed by `computeDelaySeconds` from a delay `d` of the caller's plan;
when the failed attempt's response is available, that wait equals
`min(parse_retry_after(response, d*60), d*60)` and hence never exceeds
`d * 60` seconds. -/
theorem http_request_sleep_spec (cfg : HttpConfig) (heap : List HeadersMap) (href : Option Nat)
    (rd : Option (List Int)) (resp : Option Response) (secs : Int)
    (h : Event.sleep resp secs ∈ ((http_request cfg heap href rd).2).trace) :
    ∃ d : Int, d ∈ rd.getD [1, 1] ∧ secs = computeDelaySeconds resp d ∧
      (∀ r, resp = some r → secs = min (parse_retry_after r (d * 60)) (d * 60)) ∧
      secs ≤ d * 60 := by
  rw [http_request] at h
  rcases httpLoop_sleep_spec cfg heap.length _ _ resp secs h with hin | ⟨d, hd, hs⟩
  · simp at hin
  · have hd' : d ∈ rd.getD [1, 1] := by
      rw [List.mem_append] at hd
      rcases hd with hd | hd
      · rcases List.mem_map.mp hd with ⟨x, hx, he⟩
        cases he
        exact hx
      · simp at hd
    refine ⟨d, hd', hs, ?_, ?_⟩
    · intro r hr
      rw [hs, hr]
      rfl
    · rw [hs]
      cases resp with
      | some r => exact min_le_right _ _
      | none => exact le_refl _

/-- Witness for C2: a server answering 503 with `Retry-After: 10` against a
2-minute caller delay sleeps 10 seconds (the shorter server delay wins). -/
theorem http_request_sleep_spec_witness :
    ∃ d : Int, d ∈ [(2 : Int)] ∧
      (10 : Int) = computeDelaySeconds (some ⟨503, some (.intVal 10)⟩) d ∧
      (∀ r, (some (⟨503, some (.intVal 10)⟩ : Response)) = some r →
        (10 : Int) = min (parse_retry_after r (d * 60)) (d * 60)) ∧
      (10 : Int) ≤ d * 60 :=
  http_request_sleep_spec
    ⟨fun _ => .response ⟨503, some (.intVal 10)⟩, fun _ => [], true, true, false, false⟩
    [] none (some [2]) (some ⟨503, some (.intVal 10)⟩) 10 (by
      have hcds : computeDelaySeconds (some ⟨503, some (.intVal 10)⟩) 2 = 10 := by decide
      simp [http_request, httpLoop, httpAfterAttempt, httpAfterAuth, doAttempt, authStep,
        emitIf, heapHeaders, hcds, requestOnce, temporaryStatuses])

/-! ### The 401 re-authentication scenario (C3) -/

/-- **C3**: when an attempt fails with a 401 response and an auth callback
is configured, `http_request` calls the auth callback exactly once, merges
the returned headers into the request headers (`dict.update`), and issues
exactly one extra attempt immediately — without consuming a slot of the
retry plan (`ds` is arbitrary and no sleep occurs).  When that extra
attempt also fails with a 401 (a fatal-class status), the error is raised
after exactly those two attempts. -/
theorem http_request_auth_retry
    (r0 r1 : Response) (S : Nat → AttemptOutcome) (auth : Nat → HeadersMap)
    (heap : List HeadersMap) (href : Option Nat) (ds : Option (List Int))
    (h0s : S 0 = .response r0) (h1s : S 1 = .response r1)
    (hs0 : r0.status = 401) (hs1 : r1.status = 401) :
    http_request ⟨S, auth, true, true, false, true⟩ heap href ds =
      (.netError ⟨.fatal, some r1⟩,
       ⟨(heap ++ [callerHeaders heap href]).set heap.length
          (pyUpdate (callerHeaders heap href) (auth 0)),
        [.requestCB, .attempt 0 (callerHeaders heap href), .authCB 0,
         .attempt 1 (pyUpdate (callerHeaders heap href) (auth 0)),
         .errorCB ⟨.fatal, some r1⟩],
        2, 1⟩) := by
  have hro0 : requestOnce (.response r0) = .error ⟨.fatal, some r0⟩ :=
    requestOnce_fatal (by rw [hs0]; decide) (by rw [hs0]; decide)
  have hro1 : requestOnce (.response r1) = .error ⟨.fatal, some r1⟩ :=
    requestOnce_fatal (by rw [hs1]; decide) (by rw [hs1]; decide)
  have hlt : heap.length < (heap ++ [callerHeaders heap href]).length := by
    simp
  rw [http_request]
  rcases hds : ds.getD [1, 1] with _ | ⟨d, rest⟩
  · simp only [List.map_nil, List.nil_append]
    rw [httpLoop]
    simp only [emitIf, if_true, doAttempt, heapHeaders, getElem?_append_length, h0s, h1s,
      hro0, hro1, httpAfterAttempt, authStep, hs0, hs1, httpAfterAuth]
    simp [authStep, hs0, doAttempt, heapHeaders, h1s, hro1, httpAfterAttempt, httpAfterAuth,
      List.getElem?_set_eq_of_lt _ hlt, getElem?_append_length, emitIf]
  · simp only [List.map_cons, List.cons_append]
    rw [httpLoop]
    simp only [emitIf, if_true, doAttempt, heapHeaders, getElem?_append_length, h0s, h1s,
      hro0, hro1, httpAfterAttempt, authStep, hs0, hs1, httpAfterAuth]
    simp [authStep, hs0, doAttempt, heapHeaders, h1s, hro1, httpAfterAttempt, httpAfterAuth,
      List.getElem?_set_eq_of_lt _ hlt, getElem?_append_length, emitIf]

/-- Witness for C3: a server that always answers 401 with an auth callback
producing an authorization header. -/
theorem http_request_auth_retry_witness :
    http_request
        ⟨fun _ => .response ⟨401, none⟩, fun _ => [("authorization", "B")], true, true, false, true⟩
        [] none none =
      (.netError ⟨.fatal, some ⟨401, none⟩⟩,
       ⟨[[("authorization", "B")]],
        [.requestCB, .attempt 0 [], .authCB 0, .attempt 1 [("authorization", "B")],
         .errorCB ⟨.fatal, some ⟨401, none⟩⟩],
        2, 1⟩) :=
  http_request_auth_retry ⟨401, none⟩ ⟨401, none⟩ _ _ [] none none rfl rfl rfl rfl

/-! ## Multi-line JSON reading (`ml_json.py`)

`read_multiline_json_with_details` iterates the lines of an opened file
(each line still carrying its trailing newline, as Python binary-file
iteration yields them), skips lines that are empty after `rstrip(b"\r\n")`,
decodes the rest with `json.loads` and logs-and-skips per-line decode
failures; a file that cannot be opened or read is logged and yields
nothing.  The stdlib collaborators are abstracted: the opened file is
`Option (List String)` (`none` = unreadable) and the JSON decoder is a
parameter `decode` (`none` = `json.JSONDecodeError`). -/

/-- Python `line.rstrip(b"\r\n")`. -/
def rstripCRLF (s : String) : String :=
  s.dropRightWhile (fun c => c == '\r' || c == '\n')

/-- One entry yielded by `read_multiline_json_with_details`: the parsed
JSON, the line number and the byte offset. -/
structure LineDetails where
  json : JSON
  line_num : Nat
  byte_offset : Nat

/-- The loop of `read_multiline_json_with_details` (ml_json.py lines
291-303): `enumerate` carries the line number, `byte_total` accumulates
`len(line)`, empty (after rstrip) lines are skipped but still counted, and
decode failures are logged and skipped. -/
def readLinesLoop (decode : String → Option JSON) :
    List String → Nat → Nat → List LineDetails
  | [], _, _ => []
  | line :: rest, lineNum, byteTotal =>
    let byteNum := byteTotal
    let byteTotal' := byteTotal + line.utf8ByteSize
    if rstripCRLF line = "" then readLinesLoop decode rest (lineNum + 1) byteTotal'
    else
      match decode line with
      | some j => ⟨j, lineNum, byteNum⟩ :: readLinesLoop decode rest (lineNum + 1) byteTotal'
      | none => readLinesLoop decode rest (lineNum + 1) byteTotal'

/-- `read_multiline_json_with_details` (ml_json.py lines 262-305) at offset
0, as used by `read_multiline_json`: open the file (on any I/O failure log
an error and yield nothing) and run the line loop. -/
def read_multiline_json_with_details (decode : String → Option JSON)
    (file : Option (List String)) : List LineDetails :=
  match file with
  | none => []
  | some lines => readLinesLoop decode lines 0 0

/-- `read_multiline_json` (ml_json.py lines 308-326): the `"json"` field of
every detail entry. -/
def read_multiline_json (decode : String → Option JSON) (file : Option (List String)) :
    List JSON :=
  (read_multiline_json_with_details decode file).map (fun e => e.json)

theorem readLinesLoop_map_json (decode : String → Option JSON) (lines : List String) :
    ∀ (n b : Nat), (readLinesLoop decode lines n b).map (fun e => e.json) =
      lines.filterMap (fun line => if rstripCRLF line = "" then none else decode line) := by
  induction lines with
  | nil => intro n b; rfl
  | cons line rest ih =>
    intro n b
    rw [readLinesLoop]
    by_cases he : rstripCRLF line = ""
    · simp only [if_pos he, List.filterMap_cons, ih]
    · cases hd : decode line with
      | some j => simp [if_neg he, List.filterMap_cons, hd, ih]
      | none => simp [if_neg he, List.filterMap_cons, hd, ih]

/-! ## PyArrow schema building (`schemas.py`)

The external `fhirclient` object model supplies, per resource type, an
ordered property list (name, JSON name, python type, list-ness, of-many
group, required-ness).  Python types are embedded as finite trees
(`PyType`): a `pyStruct` node carries the flags the builder inspects
(`isinstance(base_obj, full_schema_types)`, `issubclass(..., Extension)`)
and its own property list — an arbitrary finite unrolling of the (possibly
cyclic) class graph, sufficient because the builder only ever explores
finite depth.  `pyUnknown` stands for a declared primitive type outside
{int, float, str, bool, FHIRDate}. -/

/-- The non-type data of one `FhirProperty` namedtuple (schemas.py line 20). -/
structure FhirPropData where
  name : String
  json_name : String
  is_list : Bool
  of_many : Option String
  required : Bool

/-- An embedded python type as inspected by the schema builder. -/
inductive PyType where
  | pyInt
  | pyFloat
  | pyStr
  | pyBool
  | pyDate
  | pyUnknown
  | pyStruct (fullSchema : Bool) (isExt : Bool) (props : List (FhirPropData × PyType))

/-- A `FhirProperty`: its data fields and its `pytype`. -/
abbrev FhirProperty := FhirPropData × PyType

/-- `issubclass(pytype, extension.Extension)` (schemas.py line 204): false
for every primitive. -/
def PyType.isExt : PyType → Bool
  | .pyStruct _ e _ => e
  | _ => false

mutual

/-- An embedded `pyarrow.DataType`. -/
inductive PAType where
  | int32
  | float64
  | string
  | boolType
  | listType (t : PAType)
  | structType (fields : List PAField)

/-- An embedded `pyarrow.Field`. -/
inductive PAField where
  | mk (name : String) (ptype : PAType) (nullable : Bool)

end

/-- The name of a PyArrow field. -/
def PAField.name : PAField → String
  | .mk n _ _ => n

/-- An embedded `pyarrow.Schema`: an ordered field list. -/
structure PASchema where
  fields : List PAField

/-- The external FHIR metadata: `FHIRElementFactory.instantiate(name)`
exposed as the instantiated resource's full-schema flag and property list,
plus `element.Element`'s property list (used for sunder fields). -/
structure StructInfo where
  fullSchema : Bool
  props : List FhirProperty

structure FhirEnv where
  resource : String → StructInfo
  elementProps : List FhirProperty

/-- Schema inclusion depth (schemas.py line 26). -/
def LEVEL_INCLUSION : Nat := 1

/-- `_basic_fhir_to_pyarrow_type` (schemas.py lines 276-295): recognized
primitives map to their PyArrow types (dates stay strings); anything else
raises `ValueError` ("Unexpected type"). -/
def basicFhirToPyarrowType : PyType → Except String PAType
  | .pyInt => .ok .int32
  | .pyFloat => .ok .float64
  | .pyStr => .ok .string
  | .pyBool => .ok .boolType
  | .pyDate => .ok .string
  | _ => .error "Unexpected type"

/-- Wrap list-valued properties in a ListType (schemas.py lines 236-237). -/
def wrapList (isList : Bool) (t : PAType) : PAType :=
  if isList then .listType t else t

/-- The descended shape of lines 192-193:
`if batch_shape is not None: batch_shape = batch_shape.get(prop.json_name)`. -/
def descendShape (shape : Option Shape) (name : String) : Option Shape :=
  shape.bind fun s => pyGet s.fields name

/-- The fake sunder property of `_sunder_to_pyarrow_property` (schemas.py
lines 265-272), whose pytype is `element.Element`. -/
def sunderProp (p : FhirProperty) (el : List FhirProperty) : FhirProperty :=
  (⟨"_" ++ p.1.name, "_" ++ p.1.json_name, p.1.is_list, p.1.of_many, p.1.required⟩,
   .pyStruct false false el)

mutual

/-- A computable size of a shape tree, for termination measures. -/
def Shape.psize : Shape → Nat
  | .node fs => 1 + psizeFields fs

def psizeFields : List (String × Shape) → Nat
  | [] => 0
  | (_, s) :: rest => 1 + Shape.psize s + psizeFields rest

end

/-- Size of an optional shape, for termination. -/
def optShapeSize : Option Shape → Nat
  | none => 0
  | some s => 1 + s.psize

theorem psize_pyGet_lt {fs : List (String × Shape)} {k : String} {w : Shape}
    (h : pyGet fs k = some w) : w.psize < psizeFields fs := by
  induction fs with
  | nil => simp [pyGet] at h
  | cons kv rest ih =>
    obtain ⟨k0, s0⟩ := kv
    rw [pyGet] at h
    by_cases h0 : k0 = k
    · rw [if_pos h0] at h
      cases h
      rw [psizeFields]
      omega
    · rw [if_neg h0] at h
      have := ih h
      rw [psizeFields]
      omega

theorem optShapeSize_descend_lt (s : Shape) (jn : String) :
    optShapeSize (descendShape (some s) jn) < optShapeSize (some s) := by
  obtain ⟨fs⟩ := s
  show optShapeSize (pyGet (Shape.node fs).fields jn) < optShapeSize (some (Shape.node fs))
  cases h : pyGet (Shape.node fs).fields jn with
  | none => simp [optShapeSize, Shape.psize]
  | some w =>
    have := psize_pyGet_lt (by simpa using h)
    simp only [optShapeSize, Shape.psize]
    omega

mutual

/-- `_fhir_obj_to_pyarrow_fields` (schemas.py lines 163-181): for each
property, convert it (descending the shape by its JSON name first, as
`_fhir_to_pyarrow_property` lines 192-193 do) and check its sunder
sibling; collect the produced fields in order. -/
def fhirObjToPyarrowFields (el : List FhirProperty) (baseFull : Bool)
    (props : List FhirProperty) (shape : Option Shape) (level : Nat) :
    Except String (List PAField) :=
  match props with
  | [] => .ok []
  | p :: rest => do
    let pa ← fhirToPyarrowPropAux el p baseFull (descendShape shape p.1.json_name) level
    let su ← sunderToPyarrowProp el p shape
    let tail ← fhirObjToPyarrowFields el baseFull rest shape level
    .ok (pa.toList ++ su.toList ++ tail)
termination_by (optShapeSize shape, sizeOf props)
decreasing_by
  · simp_wf
    rcases shape with _ | s
    · apply Prod.Lex.right
      obtain ⟨pd, pt⟩ := p
      simp only [List.cons.sizeOf_spec, Prod.mk.sizeOf_spec]
      omega
    · exact Prod.Lex.left _ _ (optShapeSize_descend_lt s _)
  · apply Prod.Lex.right
    show 0 < sizeOf (p :: rest)
    have h : sizeOf (p :: rest) = 1 + sizeOf p + sizeOf rest := rfl
    omega
  · apply Prod.Lex.right
    show sizeOf rest < sizeOf (p :: rest)
    have h : sizeOf (p :: rest) = 1 + sizeOf p + sizeOf rest := rfl
    omega

/-- `_fhir_to_pyarrow_property` (schemas.py lines 184-241) after the shape
descent of lines 192-193 (`dshape` is already `batch_shape.get(json_name)`).
Force-inclusion applies inside CodeableConcept/Coding/Period/Reference
containers except for extension-typed children; structs are skipped (not
descended) at level ≥ 1 when not included, and recursed into otherwise,
dropping childless structs; primitives are skipped only beyond level 1,
and are otherwise converted by `_basic_fhir_to_pyarrow_type` (which raises
on unrecognized types).  Every produced field is nullable. -/
def fhirToPyarrowPropAux (el : List FhirProperty) (p : FhirProperty) (baseFull : Bool)
    (dshape : Option Shape) (level : Nat) : Except String (Option PAField) :=
  let forceInclusion := baseFull && !p.2.isExt
  let present := dshape.isSome
  let includeInSchema := present || forceInclusion
  match hp : p.2 with
  | .pyStruct full _ sprops =>
    if LEVEL_INCLUSION ≤ level ∧ includeInSchema = false then .ok none
    else do
      let children ← fhirObjToPyarrowFields el full sprops dshape (level + 1)
      if children.isEmpty then .ok none
      else .ok (some (.mk p.1.json_name (wrapList p.1.is_list (.structType children)) true))
  | prim =>
    if LEVEL_INCLUSION < level ∧ includeInSchema = false then .ok none
    else do
      let t ← basicFhirToPyarrowType prim
      .ok (some (.mk p.1.json_name (wrapList p.1.is_list t) true))
termination_by (optShapeSize dshape, sizeOf p.2)
decreasing_by
  apply Prod.Lex.right
  rw [hp]
  simp only [PyType.pyStruct.sizeOf_spec]
  omega

/-- `_sunder_to_pyarrow_property` (schemas.py lines 244-273): nothing to do
when the parent shape is falsy (absent or empty) or has no `_name` key;
otherwise convert the fake Element-typed property at `LEVEL_INCLUSION`
(its shape descent lands on the observed `_name` subtree). -/
def sunderToPyarrowProp (el : List FhirProperty) (p : FhirProperty) (shape : Option Shape) :
    Except String (Option PAField) :=
  match shape with
  | none => .ok none
  | some s =>
    if s.fields.isEmpty then .ok none
    else
      match hw : pyGet s.fields ("_" ++ p.1.json_name) with
      | none => .ok none
      | some w => fhirToPyarrowPropAux el (sunderProp p el) false (some w) LEVEL_INCLUSION
termination_by (optShapeSize shape, 0)
decreasing_by
  apply Prod.Lex.left
  obtain ⟨fs⟩ := s
  have := psize_pyGet_lt (by simpa using hw)
  simp only [optShapeSize, Shape.psize]
  omega

end

/-- `_create_pyarrow_schema_for_resource` (schemas.py lines 140-160):
instantiate the resource, and prepend a `resourceType` string field (which
`fhirclient` does not declare) to the converted property fields.
`level = 0` when wide, else `2`. -/
def createPyarrowSchemaForResource (env : FhirEnv) (resourceType : String)
    (batchShape : Option Shape) (wide : Bool) : Except String PASchema := do
  let info := env.resource resourceType
  let level := if wide then 0 else 2
  let fields ← fhirObjToPyarrowFields env.elementProps info.fullSchema info.props
    batchShape level
  .ok ⟨PAField.mk "resourceType" .string true :: fields⟩

/-- Python truthiness of a JSON value (for the
`if contained_type := contained_obj.get("resourceType")` walrus test). -/
def jsonTruthy : JSON → Bool
  | .null => false
  | .bool b => b
  | .num n => n != 0
  | .str s => !s.isEmpty
  | .arr xs => !xs.isEmpty
  | .obj kvs => !kvs.isEmpty

/-- The contained-resource-type collection of `pyarrow_schema_from_rows`
(schemas.py lines 65-68): iterate `row.get("contained", [])`, collecting
every truthy `resourceType`.  A non-list `contained` value or a non-dict
entry makes the original raise (`TypeError`/`AttributeError` — except the
vacuous iterations over an empty dict or string); a truthy non-string
`resourceType` poisons the later sort/instantiate steps, likewise an error.
-/
def containedTypesOfRow (row : List (String × JSON)) : Except String (List String) :=
  match pyGet row "contained" with
  | none => .ok []
  | some (.arr xs) =>
    xs.foldlM
      (fun acc x =>
        match x with
        | .obj fs =>
          match pyGet fs "resourceType" with
          | some v =>
            if jsonTruthy v then
              match v with
              | .str s => .ok (acc ++ [s])
              | _ => .error "non-string resourceType"
            else .ok acc
          | none => .ok acc
        | _ => .error "contained entry is not an object")
      []
  | some (.obj []) => .ok []
  | some (.str "") => .ok []
  | some _ => .error "contained value is not iterable as objects"

/-- `_include_contained_schemas` (schemas.py lines 108-137): comingle the
(narrow) sub-schemas of every observed contained type into one struct,
last writer per field name winning, sorted by name, and splice it in as
the element type of the `contained` field.  With no `contained` field in
the schema, `get_field_index` yields `-1` and the `Schema.remove` call
rejects it (modelled as an error). -/
def includeContainedSchemas (env : FhirEnv) (schema : PASchema)
    (containedTypes : List String) (batchShape : Shape) : Except String PASchema := do
  if containedTypes.isEmpty then
    .ok schema
  else
    let containedShape := pyGet batchShape.fields "contained"
    let sortedTypes := containedTypes.dedup.mergeSort (fun a b => decide (a ≤ b))
    let fieldsDict ← sortedTypes.foldlM
      (fun (acc : List (String × PAField)) ct => do
        let sub ← createPyarrowSchemaForResource env ct containedShape false
        .ok (sub.fields.foldl (fun acc2 f => pySet acc2 f.name f) acc))
      []
    let sortedFields := ((fieldsDict.map Prod.fst).mergeSort
      (fun a b => decide (a ≤ b))).filterMap (fun n => pyGet fieldsDict n)
    match schema.fields.findIdx? (fun (f : PAField) => f.name = "contained") with
    | none => .error "invalid field index"
    | some idx =>
      .ok ⟨(schema.fields.eraseIdx idx).insertIdx idx
        (PAField.mk "contained" (.listType (.structType sortedFields)) true)⟩

/-- `pyarrow_schema_from_rows` (schemas.py lines 29-73): merge the shape of
all rows and gather contained resource types, build the wide resource
schema, then splice in the contained schemas. -/
def pyarrow_schema_from_rows (env : FhirEnv) (resourceType : String)
    (rows : List (List (String × JSON))) : Except String PASchema := do
  let batchShape := rows.foldl (fun sh row => gsd sh (.obj row)) emptyShape
  let containedTypes ← rows.foldlM
    (fun acc row => do
      let ts ← containedTypesOfRow row
      .ok (acc ++ ts))
    ([] : List String)
  let schema ← createPyarrowSchemaForResource env resourceType (some batchShape) true
  includeContainedSchemas env schema containedTypes batchShape

/-- `_fhir_to_pyarrow_property` (schemas.py lines 184-241), with the shape
descent of lines 192-193 made explicit. -/
def fhirToPyarrowProperty (el : List FhirProperty) (p : FhirProperty) (baseFull : Bool)
    (shape : Option Shape) (level : Nat) : Except String (Option PAField) :=
  fhirToPyarrowPropAux el p baseFull (descendShape shape p.1.json_name) level

/-- `_fhir_to_pyarrow_property` on a property declaring an unrecognized
primitive type: skipped only beyond the inclusion level when unobserved and
unforced, and a `ValueError` otherwise. -/
theorem aux_unknown (el : List FhirProperty) (pd : FhirPropData) (baseFull : Bool)
    (dshape : Option Shape) (level : Nat) :
    fhirToPyarrowPropAux el (pd, .pyUnknown) baseFull dshape level =
      if LEVEL_INCLUSION < level ∧ (dshape.isSome || baseFull) = false then .ok none
      else .error "Unexpected type" := by
  simp only [fhirToPyarrowPropAux, PyType.isExt, Bool.not_false, Bool.and_true]
  by_cases h : LEVEL_INCLUSION < level ∧ (dshape.isSome || baseFull) = false
  · rw [if_pos h, if_pos h]
  · rw [if_neg h, if_neg h]
    rfl

/-- At level 0 (the resource's own property walk), a property list
containing an unrecognized primitive type always aborts. -/
theorem fhirObjToFields_unknown (el : List FhirProperty) (bf : Bool) (shape : Option Shape) :
    ∀ props : List FhirProperty, (∃ p ∈ props, p.2 = .pyUnknown) →
      ∃ msg, fhirObjToPyarrowFields el bf props shape 0 = .error msg := by
  intro props
  induction props with
  | nil =>
    rintro ⟨p, hm, _⟩
    cases hm
  | cons q rest ih =>
    rintro ⟨p, hm, hp⟩
    rw [fhirObjToPyarrowFields]
    rcases List.mem_cons.mp hm with heq | hmem
    · subst heq
      obtain ⟨pd, pt⟩ := p
      cases hp
      rw [aux_unknown]
      rw [if_neg (by simp [LEVEL_INCLUSION])]
      exact ⟨"Unexpected type", rfl⟩
    · cases hA : fhirToPyarrowPropAux el q bf (descendShape shape q.1.json_name) 0 with
      | error m => exact ⟨m, rfl⟩
      | ok pa =>
        cases hS : sunderToPyarrowProp el q shape with
        | error m => exact ⟨m, rfl⟩
        | ok su =>
          obtain ⟨msg, hmsg⟩ := ih ⟨p, hmem, hp⟩
          rw [hmsg]
          exact ⟨msg, rfl⟩

/-- **C8**: a property whose declared primitive type is outside
{int, float, str, bool, date-like} aborts schema construction loudly
whenever it is included (at or below the inclusion level, observed in the
batch shape, or force-included) — the only silent outcome is the
deep-unobserved skip, which never produces a field; and
`pyarrow_schema_from_rows` fails outright for every batch of rows whenever
the resource declares such a property at top level. -/
theorem unknown_primitive_raises
    (el : List FhirProperty) (p : FhirProperty) (baseFull : Bool) (shape : Option Shape)
    (level : Nat) (env : FhirEnv) (rt : String) (rows : List (List (String × JSON)))
    (hp : p.2 = .pyUnknown) :
    ((level ≤ LEVEL_INCLUSION ∨ (descendShape shape p.1.json_name).isSome = true ∨
        baseFull = true) →
      fhirToPyarrowProperty el p baseFull shape level = .error "Unexpected type") ∧
      (LEVEL_INCLUSION < level → (descendShape shape p.1.json_name).isSome = false →
        baseFull = false →
        fhirToPyarrowProperty el p baseFull shape level = .ok none) ∧
      (p ∈ (env.resource rt).props → ∃ msg, pyarrow_schema_from_rows env rt rows = .error msg) := by
  obtain ⟨pd, pt⟩ := p
  cases hp
  refine ⟨?_, ?_, ?_⟩
  · intro hinc
    rw [fhirToPyarrowProperty, aux_unknown, if_neg]
    rintro ⟨hlvl, hfalse⟩
    rcases hinc with h | h | h
    · omega
    · simp [h] at hfalse
    · simp [h] at hfalse
  · intro hlvl hshape hbase
    rw [fhirToPyarrowProperty, aux_unknown, if_pos]
    exact ⟨hlvl, by simp [hshape, hbase]⟩
  · intro hmem
    simp only [pyarrow_schema_from_rows]
    cases hct : rows.foldlM
        (fun acc row => do
          let ts ← containedTypesOfRow row
          Except.ok (acc ++ ts))
        ([] : List String) with
    | error m => exact ⟨m, rfl⟩
    | ok cts =>
      obtain ⟨msg, hF⟩ := fhirObjToFields_unknown env.elementProps
        (env.resource rt).fullSchema
        (some (rows.foldl (fun sh row => gsd sh (.obj row)) emptyShape))
        (env.resource rt).props ⟨(pd, .pyUnknown), hmem, rfl⟩
      have hcs : createPyarrowSchemaForResource env rt
          (some (rows.foldl (fun sh row => gsd sh (.obj row)) emptyShape)) true =
          .error msg := by
        simp only [createPyarrowSchemaForResource, if_pos]
        rw [hF]
        rfl
      rw [hcs]
      exact ⟨msg, rfl⟩

/-- Witness for C8: a resource declaring one unknown-primitive property
fails loudly, both at the property level and from
`pyarrow_schema_from_rows`. -/
theorem unknown_primitive_raises_witness :
    (fhirToPyarrowProperty [] (⟨"x", "x", false, none, false⟩, .pyUnknown) false
        (some emptyShape) 0 = .error "Unexpected type") ∧
      ∃ msg, pyarrow_schema_from_rows
        ⟨fun _ => ⟨false, [(⟨"x", "x", false, none, false⟩, .pyUnknown)]⟩, []⟩
        "Patient" [] = .error msg :=
  ⟨(unknown_primitive_raises [] (⟨"x", "x", false, none, false⟩, .pyUnknown) false
      (some emptyShape) 0
      ⟨fun _ => ⟨false, [(⟨"x", "x", false, none, false⟩, .pyUnknown)]⟩, []⟩
      "Patient" [] rfl).1 (Or.inl (by decide)),
   (unknown_primitive_raises [] (⟨"x", "x", false, none, false⟩, .pyUnknown) false
      (some emptyShape) 0
      ⟨fun _ => ⟨false, [(⟨"x", "x", false, none, false⟩, .pyUnknown)]⟩, []⟩
      "Patient" [] rfl).2.2 (List.mem_singleton.mpr rfl)⟩

/-! ### Deep nullability (C7) -/

mutual

/-- Every field at every nesting depth of the type is nullable. -/
def PAType.allNullable : PAType → Bool
  | .listType t => t.allNullable
  | .structType fs => paFieldsAllNullable fs
  | _ => true

def PAField.allNullable : PAField → Bool
  | .mk _ t n => n && t.allNullable

def paFieldsAllNullable : List PAField → Bool
  | [] => true
  | f :: rest => f.allNullable && paFieldsAllNullable rest

end

theorem paFieldsAllNullable_append (xs ys : List PAField) :
    paFieldsAllNullable (xs ++ ys) = (paFieldsAllNullable xs && paFieldsAllNullable ys) := by
  induction xs with
  | nil => simp [paFieldsAllNullable]
  | cons f rest ih => simp [paFieldsAllNullable, ih, Bool.and_assoc]

theorem paFieldsAllNullable_iff (l : List PAField) :
    paFieldsAllNullable l = true ↔ ∀ f ∈ l, PAField.allNullable f = true := by
  induction l with
  | nil => simp [paFieldsAllNullable]
  | cons f rest ih => simp [paFieldsAllNullable, ih, List.forall_mem_cons]

theorem paFields_toList_nullable {pa : Option PAField}
    (h : ∀ f, pa = some f → PAField.allNullable f = true) :
    paFieldsAllNullable pa.toList = true := by
  cases pa with
  | none => rfl
  | some f => simp [Option.toList, paFieldsAllNullable, h f rfl]

theorem wrapList_allNullable (b : Bool) (t : PAType) :
    (wrapList b t).allNullable = t.allNullable := by
  cases b <;> simp [wrapList, PAType.allNullable]

theorem basicType_allNullable {pt : PyType} {t : PAType}
    (h : basicFhirToPyarrowType pt = .ok t) : t.allNullable = true := by
  cases pt <;> cases h <;> rfl

/-- The struct skip branch of `_fhir_to_pyarrow_property`, in closed form. -/
theorem aux_struct_skip (el : List FhirProperty) (pd : FhirPropData) (full isExt : Bool)
    (sprops : List FhirProperty) (bf : Bool) (dshape : Option Shape) (lvl : Nat)
    (hc : LEVEL_INCLUSION ≤ lvl ∧ ((dshape.isSome || (bf && !isExt)) = false)) :
    fhirToPyarrowPropAux el (pd, .pyStruct full isExt sprops) bf dshape lvl = .ok none := by
  simp only [fhirToPyarrowPropAux, PyType.isExt]
  rw [if_pos hc]

/-- The struct recursion branch of `_fhir_to_pyarrow_property` when the
children computation fails. -/
theorem aux_struct_error (el : List FhirProperty) (pd : FhirPropData) (full isExt : Bool)
    (sprops : List FhirProperty) (bf : Bool) (dshape : Option Shape) (lvl : Nat) (m : String)
    (hch : fhirObjToPyarrowFields el full sprops dshape (lvl + 1) = .error m)
    (hc : ¬(LEVEL_INCLUSION ≤ lvl ∧ ((dshape.isSome || (bf && !isExt)) = false))) :
    fhirToPyarrowPropAux el (pd, .pyStruct full isExt sprops) bf dshape lvl = .error m := by
  simp only [fhirToPyarrowPropAux, PyType.isExt, hch]
  rw [if_neg hc]
  rfl

/-- The struct recursion branch of `_fhir_to_pyarrow_property` when the
children computation succeeds. -/
theorem aux_struct_ok (el : List FhirProperty) (pd : FhirPropData) (full isExt : Bool)
    (sprops : List FhirProperty) (bf : Bool) (dshape : Option Shape) (lvl : Nat)
    (children : List PAField)
    (hch : fhirObjToPyarrowFields el full sprops dshape (lvl + 1) = .ok children)
    (hc : ¬(LEVEL_INCLUSION ≤ lvl ∧ ((dshape.isSome || (bf && !isExt)) = false))) :
    fhirToPyarrowPropAux el (pd, .pyStruct full isExt sprops) bf dshape lvl =
      if children.isEmpty then .ok none
      else .ok (some (.mk pd.json_name (wrapList pd.is_list (.structType children)) true)) := by
  simp only [fhirToPyarrowPropAux, PyType.isExt, hch]
  rw [if_neg hc]
  rfl

/-- The primitive branch of `_fhir_to_pyarrow_property` when the base
conversion fails, in closed form. -/
theorem aux_prim_error (el : List FhirProperty) (pd : FhirPropData) (pt : PyType) (bf : Bool)
    (dshape : Option Shape) (lvl : Nat) (m : String)
    (hns : ∀ full isExt sprops, pt ≠ PyType.pyStruct full isExt sprops)
    (ht : basicFhirToPyarrowType pt = .error m)
    (hc : ¬(LEVEL_INCLUSION < lvl ∧ ((dshape.isSome || (bf && !pt.isExt)) = false))) :
    fhirToPyarrowPropAux el (pd, pt) bf dshape lvl = .error m := by
  cases pt with
  | pyStruct f i s => exact absurd rfl (hns f i s)
  | pyInt => simp only [fhirToPyarrowPropAux, PyType.isExt] at hc ⊢; rw [if_neg hc, ht]; rfl
  | pyFloat => simp only [fhirToPyarrowPropAux, PyType.isExt] at hc ⊢; rw [if_neg hc, ht]; rfl
  | pyStr => simp only [fhirToPyarrowPropAux, PyType.isExt] at hc ⊢; rw [if_neg hc, ht]; rfl
  | pyBool => simp only [fhirToPyarrowPropAux, PyType.isExt] at hc ⊢; rw [if_neg hc, ht]; rfl
  | pyDate => simp only [fhirToPyarrowPropAux, PyType.isExt] at hc ⊢; rw [if_neg hc, ht]; rfl
  | pyUnknown =>
    simp only [fhirToPyarrowPropAux, PyType.isExt] at hc ⊢; rw [if_neg hc, ht]; rfl

/-- The primitive branch of `_fhir_to_pyarrow_property` when the base
conversion succeeds, in closed form. -/
theorem aux_prim_ok (el : List FhirProperty) (pd : FhirPropData) (pt : PyType) (bf : Bool)
    (dshape : Option Shape) (lvl : Nat) (t : PAType)
    (hns : ∀ full isExt sprops, pt ≠ PyType.pyStruct full isExt sprops)
    (ht : basicFhirToPyarrowType pt = .ok t)
    (hc : ¬(LEVEL_INCLUSION < lvl ∧ ((dshape.isSome || (bf && !pt.isExt)) = false))) :
    fhirToPyarrowPropAux el (pd, pt) bf dshape lvl =
      .ok (some (.mk pd.json_name (wrapList pd.is_list t) true)) := by
  cases pt with
  | pyStruct f i s => exact absurd rfl (hns f i s)
  | pyInt => simp only [fhirToPyarrowPropAux, PyType.isExt] at hc ⊢; rw [if_neg hc, ht]; rfl
  | pyFloat => simp only [fhirToPyarrowPropAux, PyType.isExt] at hc ⊢; rw [if_neg hc, ht]; rfl
  | pyStr => simp only [fhirToPyarrowPropAux, PyType.isExt] at hc ⊢; rw [if_neg hc, ht]; rfl
  | pyBool => simp only [fhirToPyarrowPropAux, PyType.isExt] at hc ⊢; rw [if_neg hc, ht]; rfl
  | pyDate => simp only [fhirToPyarrowPropAux, PyType.isExt] at hc ⊢; rw [if_neg hc, ht]; rfl
  | pyUnknown =>
    simp only [fhirToPyarrowPropAux, PyType.isExt] at hc ⊢; rw [if_neg hc, ht]; rfl

/-- The primitive skip branch of `_fhir_to_pyarrow_property`. -/
theorem aux_prim_skip (el : List FhirProperty) (pd : FhirPropData) (pt : PyType) (bf : Bool)
    (dshape : Option Shape) (lvl : Nat)
    (hns : ∀ full isExt sprops, pt ≠ PyType.pyStruct full isExt sprops)
    (hc : LEVEL_INCLUSION < lvl ∧ ((dshape.isSome || (bf && !pt.isExt)) = false)) :
    fhirToPyarrowPropAux el (pd, pt) bf dshape lvl = .ok none := by
  cases pt with
  | pyStruct f i s => exact absurd rfl (hns f i s)
  | pyInt => simp only [fhirToPyarrowPropAux, PyType.isExt] at hc ⊢; rw [if_pos hc]
  | pyFloat => simp only [fhirToPyarrowPropAux, PyType.isExt] at hc ⊢; rw [if_pos hc]
  | pyStr => simp only [fhirToPyarrowPropAux, PyType.isExt] at hc ⊢; rw [if_pos hc]
  | pyBool => simp only [fhirToPyarrowPropAux, PyType.isExt] at hc ⊢; rw [if_pos hc]
  | pyDate => simp only [fhirToPyarrowPropAux, PyType.isExt] at hc ⊢; rw [if_pos hc]
  | pyUnknown => simp only [fhirToPyarrowPropAux, PyType.isExt] at hc ⊢; rw [if_pos hc]

/-- Every field (and, recursively, every nested field) produced by the
schema property walk is nullable. -/
theorem schema_fields_nullable (el : List FhirProperty) :
    (∀ (bf : Bool) (props : List FhirProperty) (shape : Option Shape) (lvl : Nat)
        (fs : List PAField), fhirObjToPyarrowFields el bf props shape lvl = .ok fs →
        paFieldsAllNullable fs = true) ∧
      (∀ (p : FhirProperty) (shape : Option Shape) (f : PAField),
        sunderToPyarrowProp el p shape = .ok (some f) → PAField.allNullable f = true) ∧
      (∀ (p : FhirProperty) (bf : Bool) (dshape : Option Shape) (lvl : Nat) (f : PAField),
        fhirToPyarrowPropAux el p bf dshape lvl = .ok (some f) →
        PAField.allNullable f = true) := by
  refine fhirObjToPyarrowFields.mutual_induct el
    (fun bf props shape lvl => ∀ fs, fhirObjToPyarrowFields el bf props shape lvl = .ok fs →
      paFieldsAllNullable fs = true)
    (fun p shape => ∀ f, sunderToPyarrowProp el p shape = .ok (some f) →
      PAField.allNullable f = true)
    (fun p bf dshape lvl => ∀ f, fhirToPyarrowPropAux el p bf dshape lvl = .ok (some f) →
      PAField.allNullable f = true)
    ?_ ?_ ?_ ?_ ?_ ?_ ?_ ?_ ?_ ?_
  · intro bf shape lvl fs h
    rw [fhirObjToPyarrowFields] at h
    cases h
    rfl
  · intro bf shape lvl p rest ih3 ih2 ih1 fs h
    rw [fhirObjToPyarrowFields] at h
    cases hA : fhirToPyarrowPropAux el p bf (descendShape shape p.1.json_name) lvl with
    | error m =>
      rw [hA] at h
      cases h
    | ok pa =>
      rw [hA] at h
      cases hS : sunderToPyarrowProp el p shape with
      | error m =>
        rw [hS] at h
        cases h
      | ok su =>
        rw [hS] at h
        cases hT : fhirObjToPyarrowFields el bf rest shape lvl with
        | error m =>
          rw [hT] at h
          cases h
        | ok tail =>
          rw [hT] at h
          cases h
          have h1 : paFieldsAllNullable pa.toList = true :=
            paFields_toList_nullable (fun f hf => ih3 f (hf ▸ hA))
          have h2 : paFieldsAllNullable su.toList = true :=
            paFields_toList_nullable (fun f hf => ih2 f (hf ▸ hS))
          have h3 : paFieldsAllNullable tail = true := ih1 tail hT
          simp [paFieldsAllNullable_append, h1, h2, h3]
  · intro p f h
    rw [sunderToPyarrowProp] at h
    cases h
  · intro p s hemp f h
    rw [sunderToPyarrowProp, if_pos hemp] at h
    cases h
  · intro p s hemp hget f h
    rw [sunderToPyarrowProp, if_neg hemp, hget] at h
    cases h
  · intro p s hemp w hget ih f h
    rw [sunderToPyarrowProp, if_neg hemp, hget] at h
    exact ih f h
  · intro p bf dshape lvl fI pres incl full isExt sprops heq hskip f h
    obtain ⟨pd, pt⟩ := p
    cases heq
    rw [aux_struct_skip el pd full isExt sprops bf dshape lvl (by exact hskip)] at h
    exact Option.noConfusion (Except.ok.inj h)
  · intro p bf dshape lvl fI pres incl full isExt sprops heq hnot ih1 f h
    obtain ⟨pd, pt⟩ := p
    cases heq
    cases hch : fhirObjToPyarrowFields el full sprops dshape (lvl + 1) with
    | error m =>
      rw [aux_struct_error el pd full isExt sprops bf dshape lvl m hch (by exact hnot)] at h
      exact Except.noConfusion h
    | ok children =>
      rw [aux_struct_ok el pd full isExt sprops bf dshape lvl children hch
        (by exact hnot)] at h
      by_cases hemp : children.isEmpty
      · rw [if_pos hemp] at h
        exact Option.noConfusion (Except.ok.inj h)
      · rw [if_neg hemp] at h
        cases Option.some.inj (Except.ok.inj h)
        simp only [PAField.allNullable, wrapList_allNullable, PAType.allNullable,
          Bool.true_and]
        exact ih1 children hch
  · intro p bf dshape lvl fI pres incl hskip hns f h
    obtain ⟨pd, pt⟩ := p
    rw [aux_prim_skip el pd pt bf dshape lvl (fun fu i s he => hns fu i s he)
      (by exact hskip)] at h
    exact Option.noConfusion (Except.ok.inj h)
  · intro p bf dshape lvl fI pres incl hnot hns f h
    obtain ⟨pd, pt⟩ := p
    cases ht : basicFhirToPyarrowType pt with
    | error m =>
      rw [aux_prim_error el pd pt bf dshape lvl m (fun fu i s he => hns fu i s he) ht
        (by exact hnot)] at h
      exact Except.noConfusion h
    | ok t =>
      rw [aux_prim_ok el pd pt bf dshape lvl t (fun fu i s he => hns fu i s he) ht
        (by exact hnot)] at h
      cases Option.some.inj (Except.ok.inj h)
      simp only [PAField.allNullable, wrapList_allNullable, Bool.true_and]
      exact basicType_allNullable ht

/-- `_create_pyarrow_schema_for_resource` succeeds exactly when the property
walk does, prepending the synthetic `resourceType` string field. -/
theorem createSchema_ok (env : FhirEnv) (rt : String) (bs : Option Shape) (w : Bool)
    (s : PASchema) (h : createPyarrowSchemaForResource env rt bs w = .ok s) :
    ∃ fields, fhirObjToPyarrowFields env.elementProps (env.resource rt).fullSchema
        (env.resource rt).props bs (if w then 0 else 2) = .ok fields ∧
      s = ⟨PAField.mk "resourceType" PAType.string true :: fields⟩ := by
  cases hF : fhirObjToPyarrowFields env.elementProps (env.resource rt).fullSchema
      (env.resource rt).props bs (if w then 0 else 2) with
  | error m =>
    simp only [createPyarrowSchemaForResource, hF] at h
    exact Except.noConfusion h
  | ok fields =>
    simp only [createPyarrowSchemaForResource, hF] at h
    exact ⟨fields, rfl, ((Except.ok.inj h).symm : s = _)⟩

/-- Every field of a schema produced by `_create_pyarrow_schema_for_resource`
is recursively nullable. -/
theorem createSchema_nullable (env : FhirEnv) (rt : String) (bs : Option Shape) (w : Bool)
    (s : PASchema) (h : createPyarrowSchemaForResource env rt bs w = .ok s) :
    paFieldsAllNullable s.fields = true := by
  obtain ⟨fields, hF, hs⟩ := createSchema_ok env rt bs w s h
  subst hs
  have hf : paFieldsAllNullable fields = true :=
    (schema_fields_nullable env.elementProps).1 (env.resource rt).fullSchema
      (env.resource rt).props bs (if w then 0 else 2) fields hF
  simp only [paFieldsAllNullable, PAField.allNullable, PAType.allNullable, hf,
    Bool.true_and, Bool.and_true]

theorem mem_of_mem_eraseIdx {α : Type u} :
    ∀ (l : List α) (i : Nat) (x : α), x ∈ l.eraseIdx i → x ∈ l := by
  intro l
  induction l with
  | nil => intro i x hx; simp [List.eraseIdx] at hx
  | cons a rest ih =>
    intro i x hx
    cases i with
    | zero => exact List.mem_cons_of_mem a hx
    | succ j =>
      rcases List.mem_cons.mp hx with h | h
      · exact h ▸ List.mem_cons_self a rest
      · exact List.mem_cons_of_mem a (ih j x h)

theorem mem_of_mem_insertIdx {α : Type u} :
    ∀ (l : List α) (n : Nat) (b x : α), x ∈ l.insertIdx n b → x = b ∨ x ∈ l := by
  intro l
  induction l with
  | nil =>
    intro n b x hx
    cases n with
    | zero => simp [List.insertIdx] at hx; exact Or.inl hx
    | succ j => simp [List.insertIdx] at hx
  | cons a rest ih =>
    intro n b x hx
    cases n with
    | zero =>
      rcases List.mem_cons.mp hx with h | h
      · exact Or.inl h
      · exact Or.inr h
    | succ j =>
      rw [List.insertIdx_succ_cons] at hx
      rcases List.mem_cons.mp hx with h | h
      · exact Or.inr (h ▸ List.mem_cons_self a rest)
      · rcases ih j b x h with h2 | h2
        · exact Or.inl h2
        · exact Or.inr (List.mem_cons_of_mem a h2)

/-- Values of the last-writer-wins field dictionary built by
`_include_contained_schemas` come from the folded-in fields or from the
starting accumulator. -/
theorem mem_foldl_pySet (xs : List PAField) :
    ∀ (acc : List (String × PAField)) (q : String × PAField),
      q ∈ xs.foldl (fun acc2 f => pySet acc2 f.name f) acc → q.2 ∈ xs ∨ q ∈ acc := by
  induction xs with
  | nil => intro acc q hq; exact Or.inr hq
  | cons f rest ih =>
    intro acc q hq
    simp only [List.foldl_cons] at hq
    rcases ih (pySet acc f.name f) q hq with h | h
    · exact Or.inl (List.mem_cons_of_mem f h)
    · rcases mem_pySet h with h2 | h2
      · rw [h2]
        exact Or.inl (List.mem_cons_self f rest)
      · exact Or.inr h2

/-- Every value of the dictionary accumulated over the sorted contained
types by `_include_contained_schemas` is a recursively nullable field. -/
theorem containedDict_nullable (env : FhirEnv) (cs : Option Shape) :
    ∀ (types : List String) (acc d : List (String × PAField)),
      (∀ q ∈ acc, PAField.allNullable q.2 = true) →
      types.foldlM
        (fun (acc2 : List (String × PAField)) ct => do
          let sub ← createPyarrowSchemaForResource env ct cs false
          Except.ok (sub.fields.foldl (fun acc3 (f : PAField) => pySet acc3 f.name f) acc2))
        acc = .ok d →
      ∀ q ∈ d, PAField.allNullable q.2 = true := by
  intro types
  induction types with
  | nil =>
    intro acc d hacc h q hq
    cases h
    exact hacc q hq
  | cons ct rest ih =>
    intro acc d hacc h q hq
    simp only [List.foldlM_cons] at h
    cases hsub : createPyarrowSchemaForResource env ct cs false with
    | error m =>
      rw [hsub] at h
      exact Except.noConfusion h
    | ok sub =>
      rw [hsub] at h
      have h3 : rest.foldlM
          (fun (acc2 : List (String × PAField)) ct => do
            let sub ← createPyarrowSchemaForResource env ct cs false
            Except.ok (sub.fields.foldl (fun acc3 (f : PAField) => pySet acc3 f.name f) acc2))
          (sub.fields.foldl (fun acc3 (f : PAField) => pySet acc3 f.name f) acc) = .ok d := h
      refine ih (sub.fields.foldl (fun acc3 (f : PAField) => pySet acc3 f.name f) acc) d
        ?_ h3 q hq
      intro q2 hq2
      rcases mem_foldl_pySet sub.fields acc q2 hq2 with h2 | h2
      · exact (paFieldsAllNullable_iff sub.fields).mp
          (createSchema_nullable env ct cs false sub hsub) q2.2 h2
      · exact hacc q2 h2

theorem exceptBind_ok {α β : Type} {x : Except String α} {k : α → Except String β} {b : β}
    (h : (x >>= k) = .ok b) : ∃ a, x = .ok a ∧ k a = .ok b := by
  cases x with
  | error m => exact Except.noConfusion h
  | ok a => exact ⟨a, rfl, h⟩

/-- Closed form of `_include_contained_schemas` on a non-empty contained
type list: the sorted comingled dictionary is built, and the `contained`
field of the schema is replaced in place. -/
theorem includeContained_ok (env : FhirEnv) (schema : PASchema) (cts : List String)
    (bs : Shape) (out : PASchema)
    (h : includeContainedSchemas env schema cts bs = .ok out)
    (hemp : ¬cts.isEmpty = true) :
    ∃ fieldsDict idx,
      (cts.dedup.mergeSort (fun a b => decide (a ≤ b))).foldlM
        (fun (acc : List (String × PAField)) ct => do
          let sub ← createPyarrowSchemaForResource env ct (pyGet bs.fields "contained") false
          Except.ok (sub.fields.foldl (fun acc2 (f : PAField) => pySet acc2 f.name f) acc))
        [] = .ok fieldsDict ∧
      schema.fields.findIdx? (fun (f : PAField) => f.name = "contained") = some idx ∧
      out = ⟨(schema.fields.eraseIdx idx).insertIdx idx
        (PAField.mk "contained" (PAType.listType (PAType.structType
          (((fieldsDict.map Prod.fst).mergeSort (fun a b => decide (a ≤ b))).filterMap
            (fun n => pyGet fieldsDict n)))) true)⟩ := by
  have h0 : (do
      let fieldsDict ← (cts.dedup.mergeSort (fun a b => decide (a ≤ b))).foldlM
        (fun (acc : List (String × PAField)) ct => do
          let sub ← createPyarrowSchemaForResource env ct (pyGet bs.fields "contained") false
          Except.ok (sub.fields.foldl (fun acc2 (f : PAField) => pySet acc2 f.name f) acc))
        []
      match schema.fields.findIdx? (fun (f : PAField) => f.name = "contained") with
      | none => Except.error "invalid field index"
      | some idx =>
        Except.ok (⟨(schema.fields.eraseIdx idx).insertIdx idx
          (PAField.mk "contained" (PAType.listType (PAType.structType
            (((fieldsDict.map Prod.fst).mergeSort (fun a b => decide (a ≤ b))).filterMap
              (fun n => pyGet fieldsDict n)))) true)⟩ : PASchema)) = .ok out := by
    rw [← h]
    simp only [includeContainedSchemas]
    rw [if_neg hemp]
  obtain ⟨fieldsDict, hfd, hk⟩ := exceptBind_ok h0
  cases hidx : schema.fields.findIdx? (fun (f : PAField) => f.name = "contained") with
  | none =>
    rw [hidx] at hk
    exact Except.noConfusion hk
  | some idx =>
    rw [hidx] at hk
    exact ⟨fieldsDict, idx, hfd, rfl, (Except.ok.inj hk).symm⟩

/-- `_include_contained_schemas` preserves recursive nullability: the
spliced `contained` field is itself nullable with only nullable children. -/
theorem includeContained_nullable (env : FhirEnv) (schema : PASchema) (cts : List String)
    (bs : Shape) (out : PASchema)
    (h : includeContainedSchemas env schema cts bs = .ok out)
    (hs : paFieldsAllNullable schema.fields = true) :
    paFieldsAllNullable out.fields = true := by
  by_cases hemp : cts.isEmpty
  · have heq : includeContainedSchemas env schema cts bs = .ok schema := by
      simp only [includeContainedSchemas]
      rw [if_pos hemp]
    rw [heq] at h
    cases Except.ok.inj h
    exact hs
  · obtain ⟨fieldsDict, idx, hfd, hidx, hout⟩ :=
      includeContained_ok env schema cts bs out h hemp
    subst hout
    rw [paFieldsAllNullable_iff]
    intro f hf
    rcases mem_of_mem_insertIdx _ _ _ _ hf with hnew | hold
    · subst hnew
      simp only [PAField.allNullable, PAType.allNullable, Bool.true_and]
      rw [paFieldsAllNullable_iff]
      intro g hg
      obtain ⟨n, hn, hgn⟩ := List.mem_filterMap.mp hg
      have hmem : (n, g) ∈ fieldsDict := pyGet_mem hgn
      exact containedDict_nullable env (pyGet bs.fields "contained")
        (cts.dedup.mergeSort (fun a b => decide (a ≤ b))) [] fieldsDict
        (by intro q hq; cases hq) hfd (n, g) hmem
    · exact (paFieldsAllNullable_iff schema.fields).mp hs f
        (mem_of_mem_eraseIdx schema.fields idx f hold)

/-- `_include_contained_schemas` never touches the head field of the schema
(the `contained` replacement happens at a strictly positive index whenever
the first field is not named `contained`). -/
theorem includeContained_head (env : FhirEnv) (schema : PASchema) (cts : List String)
    (bs : Shape) (out : PASchema) (f0 : PAField)
    (h : includeContainedSchemas env schema cts bs = .ok out)
    (hhead : schema.fields.head? = some f0) (hname : ¬f0.name = "contained") :
    out.fields.head? = some f0 := by
  by_cases hemp : cts.isEmpty
  · have heq : includeContainedSchemas env schema cts bs = .ok schema := by
      simp only [includeContainedSchemas]
      rw [if_pos hemp]
    rw [heq] at h
    cases Except.ok.inj h
    exact hhead
  · obtain ⟨fieldsDict, idx, hfd, hidx, hout⟩ :=
      includeContained_ok env schema cts bs out h hemp
    subst hout
    cases hfs : schema.fields with
    | nil =>
      rw [hfs] at hhead
      exact Option.noConfusion hhead
    | cons a rest =>
      rw [hfs] at hhead hidx
      have ha : a = f0 := Option.some.inj hhead
      subst ha
      rw [List.findIdx?_cons, if_neg (by simpa using hname), List.findIdx?_succ] at hidx
      obtain ⟨j, hj, hj2⟩ := Option.map_eq_some'.mp hidx
      have hidx2 : idx = j + 1 := hj2.symm
      subst hidx2
      rw [List.eraseIdx_cons_succ, List.insertIdx_succ_cons]
      rfl

/-- **C7**: every schema successfully returned by `pyarrow_schema_from_rows`
has a nullable `resourceType` field of string type as its first field, and
every field at every nesting depth is nullable — regardless of the FHIR
metadata's required/optional declarations (the embedding carries the
`required` flag in `FhirPropData` and the conversion never consults it). -/
theorem pyarrow_schema_spec (env : FhirEnv) (rt : String)
    (rows : List (List (String × JSON))) (schema : PASchema)
    (h : pyarrow_schema_from_rows env rt rows = .ok schema) :
    schema.fields.head? = some (PAField.mk "resourceType" PAType.string true) ∧
      paFieldsAllNullable schema.fields = true := by
  have h0 : (do
      let containedTypes ← rows.foldlM
        (fun (acc : List String) row => do
          let ts ← containedTypesOfRow row
          Except.ok (acc ++ ts))
        []
      let base ← createPyarrowSchemaForResource env rt
        (some (rows.foldl (fun sh row => gsd sh (.obj row)) emptyShape)) true
      includeContainedSchemas env base containedTypes
        (rows.foldl (fun sh row => gsd sh (.obj row)) emptyShape)) = .ok schema := by
    rw [← h]
    simp only [pyarrow_schema_from_rows]
  obtain ⟨cts, hcts, h1⟩ := exceptBind_ok h0
  obtain ⟨base, hbase, h2⟩ := exceptBind_ok h1
  obtain ⟨fields, hF, hbs⟩ := createSchema_ok env rt _ true base hbase
  subst hbs
  constructor
  · exact includeContained_head env _ cts _ schema
      (PAField.mk "resourceType" PAType.string true) h2 rfl (by decide)
  · exact includeContained_nullable env _ cts _ schema h2
      (createSchema_nullable env rt _ true _ hbase)

/-- Witness for C7 on a concrete batch: an empty row batch for a resource
with no declared properties yields exactly the one-field schema, whose head
is the nullable string `resourceType` field and whose fields are all
recursively nullable. -/
theorem pyarrow_schema_spec_witness :
    pyarrow_schema_from_rows ⟨fun _ => ⟨false, []⟩, []⟩ "Patient" [] =
        Except.ok ⟨[PAField.mk "resourceType" PAType.string true]⟩ ∧
      (PASchema.fields ⟨[PAField.mk "resourceType" PAType.string true]⟩).head? =
        some (PAField.mk "resourceType" PAType.string true) ∧
      paFieldsAllNullable
        (PASchema.fields ⟨[PAField.mk "resourceType" PAType.string true]⟩) = true := by
  have heval : pyarrow_schema_from_rows ⟨fun _ => ⟨false, []⟩, []⟩ "Patient" [] =
      Except.ok ⟨[PAField.mk "resourceType" PAType.string true]⟩ := by
    simp only [pyarrow_schema_from_rows, createPyarrowSchemaForResource,
      includeContainedSchemas, fhirObjToPyarrowFields]
    rfl
  exact ⟨heval,
    (pyarrow_schema_spec ⟨fun _ => ⟨false, []⟩, []⟩ "Patient" [] _ heval).1,
    (pyarrow_schema_spec ⟨fun _ => ⟨false, []⟩, []⟩ "Patient" [] _ heval).2⟩

/-- **C9**: `read_multiline_json` (a total function here: every error of
the original is caught and logged) yields exactly the successfully decoded
JSON value of every line that is non-empty after stripping trailing CR/LF,
in order, skipping lines that fail to decode; and a missing or unreadable
file yields the empty sequence. -/
theorem read_multiline_json_spec (decode : String → Option JSON)
    (file : Option (List String)) :
    read_multiline_json decode file =
      (file.getD []).filterMap
        (fun line => if rstripCRLF line = "" then none else decode line) ∧
      read_multiline_json decode none = [] := by
  constructor
  · cases file with
    | none => rfl
    | some lines =>
      exact readLinesLoop_map_json decode lines 0 0
  · rfl

end CumulusFhir
